import Mathlib

/-!
# Verification of the newsletter ingestion-and-synthesis core

Shallow embedding of `src/synthesis/src/controllers/userController.ts`:
the bounded-concurrency executor `mapWithConcurrency`, the schedule
calculator `addInterval` (over the ECMAScript UTC `Date` semantics),
the content-extraction step `extractEmailsContent`, the composition step
`buildPodcastInput`, and the per-subscription pipeline `processNewsletter`
with its caller `createUsersPodcasts`.

Timestamps are modelled as `Int` milliseconds since the Unix epoch, which
is exactly the internal representation of an ECMAScript `Date`.  The UTC
accessors (`getUTCDate`, `setUTCDate`, `getUTCMonth`, `setUTCMonth`,
`getUTCFullYear`) are modelled by ECMA-262's `Day` / `TimeWithinDay` /
`MakeDay` / `MakeDate` operations over the proleptic Gregorian calendar,
implemented with the standard civil-from-days / days-from-civil algorithms.
-/

namespace Genkit

/-! ## Civil calendar arithmetic (ECMAScript `Date` model) -/

/-- Milliseconds per UTC day; ECMAScript `msPerDay`.  Every ECMAScript UTC
day is exactly this long (no leap seconds in ECMAScript time values). -/
def msPerDay : Int := 86400000

/-- Day number (days since 1970-01-01) of the civil date `(y, m, d)` with
month `m` in `1..12`, proleptic Gregorian.  Standard era-based algorithm;
linear in `d`, so out-of-range day values roll over exactly as ECMAScript's
`MakeDay` does. -/
def daysFromCivil (y m d : Int) : Int :=
  let y' := if m ≤ 2 then y - 1 else y
  let era := y' / 400
  let yoe := y' - era * 400
  let mp := (m + 9) % 12
  let doy := (153 * mp + 2) / 5 + d - 1
  let doe := yoe * 365 + yoe / 4 - yoe / 100 + doy
  era * 146097 + doe - 719468

/-- Civil date `(year, month 1..12, day 1..31)` of a day number; inverse of
`daysFromCivil`.  This is ECMAScript's `YearFromTime` / `MonthFromTime` /
`DateFromTime` (with month shifted to `1..12`). -/
def civilFromDays (z : Int) : Int × Int × Int :=
  let z' := z + 719468
  let era := z' / 146097
  let doe := z' - era * 146097
  let yoe := (doe - doe / 1460 + doe / 36524 - doe / 146096) / 365
  let y := yoe + era * 400
  let doy := doe - (365 * yoe + yoe / 4 - yoe / 100)
  let mp := (5 * doy + 2) / 153
  let d := doy - (153 * mp + 2) / 5 + 1
  let m := if mp < 10 then mp + 3 else mp - 9
  (if m ≤ 2 then y + 1 else y, m, d)

/-- Gregorian leap-year predicate. -/
def isLeapYear (y : Int) : Bool :=
  (y % 4 == 0 && y % 100 != 0) || y % 400 == 0

/-- Number of days in month `m` (`1..12`) of year `y`. -/
def daysInMonth (y m : Int) : Int :=
  if m = 2 then (if isLeapYear y then 29 else 28)
  else if m = 4 ∨ m = 6 ∨ m = 9 ∨ m = 11 then 30
  else 31

/-- ECMAScript `Day(t)`: the day number containing time value `t`. -/
def jsDay (t : Int) : Int := t / msPerDay

/-- ECMAScript `TimeWithinDay(t)`. -/
def jsTimeWithinDay (t : Int) : Int := t % msPerDay

/-- `Date.prototype.getUTCFullYear`. -/
def getUTCFullYear (t : Int) : Int := (civilFromDays (jsDay t)).1

/-- `Date.prototype.getUTCMonth` (0-based month, as in ECMAScript). -/
def getUTCMonth (t : Int) : Int := (civilFromDays (jsDay t)).2.1 - 1

/-- `Date.prototype.getUTCDate` (day of month, 1-based). -/
def getUTCDate (t : Int) : Int := (civilFromDays (jsDay t)).2.2

/-- `Date.prototype.setUTCDate(x)`: ECMA `MakeDate(MakeDay(YearFromTime t,
MonthFromTime t, x), TimeWithinDay t)`.  The new day of month `x` may be out
of range; `MakeDay` rolls it over. -/
def setUTCDate (t x : Int) : Int :=
  let c := civilFromDays (jsDay t)
  daysFromCivil c.1 c.2.1 x * msPerDay + jsTimeWithinDay t

/-- `Date.prototype.setUTCMonth(mo)` (0-based month `mo`, possibly out of
range): ECMA `MakeDate(MakeDay(YearFromTime t, mo, DateFromTime t),
TimeWithinDay t)`, where `MakeDay` normalises the month as
`year + floor(mo / 12)`, `mo mod 12`. -/
def setUTCMonth (t mo : Int) : Int :=
  let c := civilFromDays (jsDay t)
  daysFromCivil (c.1 + mo / 12) (mo % 12 + 1) c.2.2 * msPerDay + jsTimeWithinDay t

/-- Modelled from the spec: the cadence enumeration (`@prisma/client`'s
`Interval`, whose schema is not under `src/`).  The spec's data model lists
the cadence as `weekly`/`biweekly`/`monthly`/other, so the enumeration is
modelled with the three named cadences plus one unrecognised value. -/
inductive Interval where
  | WEEKLY
  | BIWEEKLY
  | MONTHLY
  | OTHER
deriving DecidableEq, Repr

/-- `addInterval` from `userController.ts` (lines 96–111): copies the input
instant and advances it with `setUTCDate`/`setUTCMonth`; the `default`
branch returns the copy unchanged. -/
def addInterval (t : Int) (interval : Interval) : Int :=
  match interval with
  | Interval.WEEKLY => setUTCDate t (getUTCDate t + 7)
  | Interval.BIWEEKLY => setUTCDate t (getUTCDate t + 14)
  | Interval.MONTHLY => setUTCMonth t (getUTCMonth t + 1)
  | Interval.OTHER => t

/-- `startOfUtcDay` from `userController.ts`: UTC midnight of `t`'s day. -/
def startOfUtcDay (t : Int) : Int := jsDay t * msPerDay

/-! ### Calendar lemmas -/

/-- `daysFromCivil` is linear in the day argument: rolling the day of month
forward by `k` days moves the day number forward by `k`. -/
theorem daysFromCivil_day_add (y m d k : Int) :
    daysFromCivil y m (d + k) = daysFromCivil y m d + k := by
  unfold daysFromCivil
  dsimp only
  split <;> omega

/-- Day number of the first day of shifted year `y` within its era
(`yoeStart y` = days before shifted-year `y`, counted from the era start). -/
def yoeStart (y : Int) : Int := 365 * y + y / 4 - y / 100

set_option maxHeartbeats 8000000 in
/-- The computed year-of-era for a day-of-era that lies inside the known
year interval equals that year.  Checked for each of the 400 years of an
era with the day symbolic. -/
theorem yoeOfDoe_eq (y D : Int) (hy0 : 0 ≤ y) (hy : y < 400) (hD : 0 ≤ D)
    (h1 : yoeStart y ≤ D)
    (h2 : D < yoeStart (y + 1) ∨ (y = 399 ∧ D = 146096)) :
    (D - D / 1460 + D / 36524 - D / 146096) / 365 = y := by
  unfold yoeStart at h1 h2
  rcases h2 with h2 | h2
  · interval_cases y <;> omega
  · omega

/-- Every day-of-era lies in some year interval (with the era's final day
belonging to year 399). -/
theorem exists_yoe : ∀ n : Nat, (n : Int) < 146097 →
    ∃ y : Int, 0 ≤ y ∧ y < 400 ∧ yoeStart y ≤ (n : Int) ∧
      ((n : Int) < yoeStart (y + 1) ∨ (y = 399 ∧ (n : Int) = 146096)) := by
  intro n
  induction n with
  | zero =>
    intro _
    refine ⟨0, by norm_num, by norm_num, ?_, Or.inl ?_⟩ <;> · unfold yoeStart; omega
  | succ n ih =>
    intro h
    obtain ⟨y, hy0, hy, hstart, hend⟩ := ih (by push_cast; push_cast at h; omega)
    rcases hend with hend | hend
    · by_cases hlt : ((n : Int) + 1) < yoeStart (y + 1)
      · exact ⟨y, hy0, hy, by push_cast; omega, Or.inl (by push_cast; omega)⟩
      · have heq : yoeStart (y + 1) = (n : Int) + 1 := by omega
        by_cases h400 : y + 1 = 400
        · have h146096 : ((n : Int) + 1) = 146096 := by
            rw [h400] at heq; unfold yoeStart at heq; omega
          exact ⟨y, hy0, hy, by push_cast; omega,
            Or.inr ⟨by omega, by push_cast; omega⟩⟩
        · refine ⟨y + 1, by omega, by omega, by push_cast; omega, Or.inl ?_⟩
          have hstep : yoeStart (y + 1) + 365 ≤ yoeStart (y + 1 + 1) := by
            unfold yoeStart; omega
          push_cast
          omega
    · exfalso
      push_cast at h
      omega

/-- Correctness of the year-of-era extraction in `civilFromDays`: bounds of
the computed year and of the residual day-of-year. -/
theorem yoeOfDoe_correct (D : Int) (h0 : 0 ≤ D) (h1 : D < 146097) :
    0 ≤ (D - D / 1460 + D / 36524 - D / 146096) / 365 ∧
    (D - D / 1460 + D / 36524 - D / 146096) / 365 < 400 ∧
    yoeStart ((D - D / 1460 + D / 36524 - D / 146096) / 365) ≤ D ∧
    (D < yoeStart ((D - D / 1460 + D / 36524 - D / 146096) / 365 + 1) ∨
      ((D - D / 1460 + D / 36524 - D / 146096) / 365 = 399 ∧ D = 146096)) := by
  obtain ⟨y, hy0, hy, hstart, hend⟩ := exists_yoe D.toNat (by omega)
  have hcast : ((D.toNat : Nat) : Int) = D := by omega
  rw [hcast] at hstart hend
  have heq := yoeOfDoe_eq y D hy0 hy h0 hstart hend
  rw [heq]
  exact ⟨by omega, by omega, hstart, hend⟩

/-- `yoeStart` is monotone. -/
theorem yoeStart_mono (a b : Int) (h : a ≤ b) : yoeStart a ≤ yoeStart b := by
  unfold yoeStart; omega

/-- Evaluation of `daysFromCivil` on the civil date reassembled from an
era/year-of-era/month-code decomposition. -/
theorem daysFromCivil_decomp (era yoe mp dd : Int)
    (h0 : 0 ≤ yoe) (h1 : yoe < 400) (h2 : 0 ≤ mp) (h3 : mp ≤ 11) :
    daysFromCivil
      (if (if mp < 10 then mp + 3 else mp - 9) ≤ 2
        then yoe + era * 400 + 1 else yoe + era * 400)
      (if mp < 10 then mp + 3 else mp - 9) dd
    = era * 146097 + yoeStart yoe + (153 * mp + 2) / 5 + dd - 1 - 719468 := by
  unfold daysFromCivil yoeStart
  dsimp only
  have hdiv1 : (yoe + era * 400) / 400 = era := by omega
  have hdiv2 : (yoe + era * 400 + 1 - 1) / 400 = era := by omega
  split <;> split <;> omega

/-- Round trip: converting a day number to a civil date and back is the
identity, for every day number. -/
theorem daysFromCivil_civilFromDays (z : Int) :
    daysFromCivil (civilFromDays z).1 (civilFromDays z).2.1 (civilFromDays z).2.2 = z := by
  unfold civilFromDays
  dsimp only
  set z' := z + 719468 with hz'
  set era := z' / 146097 with hera
  set doe := z' - era * 146097 with hdoe
  have hdoe0 : 0 ≤ doe := by omega
  have hdoe1 : doe < 146097 := by omega
  obtain ⟨hy0, hy1, hst, hend⟩ := yoeOfDoe_correct doe hdoe0 hdoe1
  set yoe := (doe - doe / 1460 + doe / 36524 - doe / 146096) / 365 with hyoe
  unfold yoeStart at hst hend
  set doy := doe - (365 * yoe + yoe / 4 - yoe / 100) with hdoy
  have hdoy0 : 0 ≤ doy := by omega
  have hdoy1 : doy ≤ 365 := by omega
  set mp := (5 * doy + 2) / 153 with hmp
  have hmp0 : 0 ≤ mp := by omega
  have hmp1 : mp ≤ 11 := by omega
  rw [daysFromCivil_decomp era yoe mp (doy - (153 * mp + 2) / 5 + 1) hy0 hy1 hmp0 hmp1]
  unfold yoeStart
  omega

/-- `isLeapYear` as an arithmetic proposition. -/
theorem isLeapYear_iff (y : Int) :
    isLeapYear y = true ↔ ((y % 4 = 0 ∧ ¬ y % 100 = 0) ∨ y % 400 = 0) := by
  unfold isLeapYear
  simp [Bool.or_eq_true, Bool.and_eq_true, beq_iff_eq, bne_iff_ne]

/-- Month-code arithmetic: recovering the month code from a day-of-year
built from a month start plus an in-range day of month. -/
theorem mp_of_doy_eq (mp d : Int) (h0 : 0 ≤ mp) (h1 : mp ≤ 11) (hd1 : 1 ≤ d)
    (hup : mp ≤ 10 → d ≤ (153 * (mp + 1) + 2) / 5 - (153 * mp + 2) / 5)
    (hfeb : mp = 11 → d ≤ 29) :
    (5 * ((153 * mp + 2) / 5 + d - 1) + 2) / 153 = mp := by
  interval_cases mp <;> omega

/-- For months other than February the month-length table agrees with the
month-code difference formula. -/
theorem daysInMonth_eq_mp_len (y m : Int) (hm1 : 1 ≤ m) (hm2 : m ≤ 12) (hne : m ≠ 2) :
    daysInMonth y m =
      (153 * ((m + 9) % 12 + 1) + 2) / 5 - (153 * ((m + 9) % 12) + 2) / 5 := by
  unfold daysInMonth
  interval_cases m <;> simp <;> omega

/-- Round trip for valid civil dates: a date whose day of month is within
the month's length converts to a day number and back to itself. -/
theorem civilFromDays_daysFromCivil (y m d : Int) (hm1 : 1 ≤ m) (hm2 : m ≤ 12)
    (hd1 : 1 ≤ d) (hd2 : d ≤ daysInMonth y m) :
    civilFromDays (daysFromCivil y m d) = (y, m, d) := by
  have hfeb : m = 2 → (d ≤ 28 ∨ (d ≤ 29 ∧ ((y % 4 = 0 ∧ ¬ y % 100 = 0) ∨ y % 400 = 0))) := by
    intro h2
    unfold daysInMonth at hd2
    rw [if_pos h2] at hd2
    split_ifs at hd2 with hl
    · exact Or.inr ⟨hd2, (isLeapYear_iff y).1 hl⟩
    · exact Or.inl hd2
  have hothers : m ≠ 2 →
      d ≤ (153 * ((m + 9) % 12 + 1) + 2) / 5 - (153 * ((m + 9) % 12) + 2) / 5 := by
    intro h2
    rw [daysInMonth_eq_mp_len y m hm1 hm2 h2] at hd2
    exact hd2
  unfold daysFromCivil civilFromDays
  dsimp only
  set y' := if m ≤ 2 then y - 1 else y with hy'
  set era := y' / 400 with hera
  set yoe := y' - era * 400 with hyoe
  have hyoe0 : 0 ≤ yoe := by omega
  have hyoe1 : yoe < 400 := by omega
  set mp := (m + 9) % 12 with hmp
  have hmp0 : 0 ≤ mp := by omega
  have hmp1 : mp ≤ 11 := by omega
  have hmpm : (m = 2 → mp = 11) ∧ (m ≠ 2 → mp ≤ 10) ∧ (m ≤ 2 ↔ 10 ≤ mp) := by
    refine ⟨?_, ?_, ?_⟩ <;> omega
  set doy := (153 * mp + 2) / 5 + d - 1 with hdoy
  have hdoy0 : 0 ≤ doy := by omega
  have hmpinv : (5 * doy + 2) / 153 = mp := by
    rw [hdoy]
    refine mp_of_doy_eq mp d hmp0 hmp1 hd1 ?_ ?_
    · intro h10
      exact hothers (by omega) |>.trans_eq (by rw [hmp])
    · intro h11
      rcases hfeb (by omega) with h | h
      · omega
      · omega
  set doe := yoe * 365 + yoe / 4 - yoe / 100 + doy with hdoe
  have hdoeEnd : doe < yoeStart (yoe + 1) ∨ (yoe = 399 ∧ doe = 146096) := by
    unfold yoeStart
    by_cases h2 : m = 2
    · rcases hfeb h2 with h | ⟨hd29, hly⟩
      · left; omega
      · have hm11 : mp = 11 := hmpm.1 h2
        have hyrel : yoe = y - 1 - era * 400 := by
          rw [hyoe, hy', if_pos (by omega)]
        have herarel : era = (y - 1) / 400 := by
          rw [hera, hy', if_pos (by omega)]
        rcases hly with ⟨h4, h100⟩ | h400
        · left; omega
        · by_cases hd29 : d = 29
          · right
            constructor <;> omega
          · left; omega
    · have := hothers h2
      have h10 : mp ≤ 10 := hmpm.2.1 h2
      left
      omega
  have hdoe0 : 0 ≤ doe := by unfold yoeStart at hdoeEnd; omega
  have hdoe1 : doe < 146097 := by
    rcases hdoeEnd with h | h
    · have := yoeStart_mono (yoe + 1) 400 (by omega)
      unfold yoeStart at this h
      omega
    · omega
  have hyoeEq : (doe - doe / 1460 + doe / 36524 - doe / 146096) / 365 = yoe := by
    refine yoeOfDoe_eq yoe doe hyoe0 hyoe1 hdoe0 ?_ ?_
    · unfold yoeStart; omega
    · rcases hdoeEnd with h | h
      · exact Or.inl h
      · exact Or.inr h
  have hz : era * 146097 + doe - 719468 + 719468 = era * 146097 + doe := by omega
  have herad : (era * 146097 + doe) / 146097 = era := by omega
  rw [hz, herad]
  have hdoe2 : era * 146097 + doe - era * 146097 = doe := by omega
  rw [hdoe2, hyoeEq]
  have hdoy2 : doe - (365 * yoe + yoe / 4 - yoe / 100) = doy := by omega
  rw [hdoy2, hmpinv]
  have hd2' : doy - (153 * mp + 2) / 5 + 1 = d := by omega
  rw [hd2']
  have hmval : (if mp < 10 then mp + 3 else mp - 9) = m := by omega
  rw [hmval]
  have hyval : (if m ≤ 2 then yoe + era * 400 + 1 else yoe + era * 400) = y := by
    split <;> · rw [hyoe, hy']; split <;> omega
  rw [hyval]

/-- The civil date extracted from any day number is a valid calendar date:
month in `1..12` and day in `1..daysInMonth`. -/
theorem civilFromDays_valid (z : Int) :
    1 ≤ (civilFromDays z).2.1 ∧ (civilFromDays z).2.1 ≤ 12 ∧
    1 ≤ (civilFromDays z).2.2 ∧
    (civilFromDays z).2.2 ≤ daysInMonth (civilFromDays z).1 (civilFromDays z).2.1 := by
  unfold civilFromDays
  dsimp only
  set z' := z + 719468 with hz'
  set era := z' / 146097 with hera
  set doe := z' - era * 146097 with hdoe
  have hdoe0 : 0 ≤ doe := by omega
  have hdoe1 : doe < 146097 := by omega
  obtain ⟨hy0, hy1, hst, hend⟩ := yoeOfDoe_correct doe hdoe0 hdoe1
  set yoe := (doe - doe / 1460 + doe / 36524 - doe / 146096) / 365 with hyoe
  unfold yoeStart at hst hend
  set doy := doe - (365 * yoe + yoe / 4 - yoe / 100) with hdoy
  have hdoy0 : 0 ≤ doy := by omega
  have hdoy1 : doy ≤ 365 := by omega
  set mp := (5 * doy + 2) / 153 with hmp
  have hmp0 : 0 ≤ mp := by omega
  have hmp1 : mp ≤ 11 := by omega
  set m := if mp < 10 then mp + 3 else mp - 9 with hm
  have hmsplit : (mp < 10 ∧ m = mp + 3) ∨ (10 ≤ mp ∧ m = mp - 9) := by
    rw [hm]
    by_cases hc : mp < 10
    · exact Or.inl ⟨hc, by rw [if_pos hc]⟩
    · exact Or.inr ⟨by omega, by rw [if_neg hc]⟩
  refine ⟨by omega, by omega, by omega, ?_⟩
  by_cases hfeb : mp = 11
  · have hm2 : m = 2 := by omega
    rw [if_pos (by omega : m ≤ 2)]
    unfold daysInMonth
    rw [if_pos hm2]
    split_ifs with hl
    · rw [isLeapYear_iff] at hl
      omega
    · rw [isLeapYear_iff] at hl
      push_neg at hl
      obtain ⟨hl1, hl2⟩ := hl
      have h4 : (yoe + era * 400 + 1) % 4 = (yoe + 1) % 4 := by omega
      have h100 : (yoe + era * 400 + 1) % 100 = (yoe + 1) % 100 := by omega
      rcases hend with h | h
      · by_cases hy4 : (yoe + era * 400 + 1) % 4 = 0
        · have hy100 := hl1 hy4
          have hy4' : (yoe + 1) % 4 = 0 := by omega
          have hy100' : (yoe + 1) % 100 = 0 := by omega
          omega
        · have hy4' : (yoe + 1) % 4 ≠ 0 := by omega
          have hjg : (yoe + 1) / 4 = yoe / 4 := by omega
          have hki : yoe / 100 ≤ (yoe + 1) / 100 := by omega
          omega
      · exfalso
        exact hl2 (by omega)
  · have hne2 : m ≠ 2 := by omega
    have hlen := daysInMonth_eq_mp_len (if m ≤ 2 then yoe + era * 400 + 1 else yoe + era * 400)
      m (by omega) (by omega) hne2
    rw [hlen]
    have hmp9 : (m + 9) % 12 = mp := by omega
    rw [hmp9]
    omega

/-- `setUTCDate (getUTCDate + k)` advances a time value by exactly `k`
days' worth of milliseconds, for every time value and every `k`. -/
theorem setUTCDate_add (t k : Int) :
    setUTCDate t (getUTCDate t + k) = t + k * msPerDay := by
  unfold setUTCDate getUTCDate jsTimeWithinDay
  dsimp only
  rw [daysFromCivil_day_add, daysFromCivil_civilFromDays]
  unfold jsDay msPerDay
  omega

/-- Advancing a time value by one month: `setUTCMonth (getUTCMonth + 1)`
lands on the `MakeDay` of the next calendar month with the same day of month
and the same time within day. -/
theorem setUTCMonth_next (t y m d : Int) (hc : civilFromDays (jsDay t) = (y, m, d))
    (hm1 : 1 ≤ m) (hm2 : m ≤ 12) :
    addInterval t Interval.MONTHLY =
      daysFromCivil (if m = 12 then y + 1 else y) (if m = 12 then 1 else m + 1) d * msPerDay
        + jsTimeWithinDay t := by
  show setUTCMonth t (getUTCMonth t + 1) = _
  unfold setUTCMonth getUTCMonth
  dsimp only
  rw [hc]
  by_cases h12 : m = 12
  · subst h12
    norm_num
  · have e1 : (m - 1 + 1) / 12 = 0 := by omega
    have e2 : (m - 1 + 1) % 12 = m := by omega
    simp only [e1, e2, add_zero, if_neg h12]

/-- **C6**: `addInterval` advances a run instant by exactly 7 days for
`WEEKLY`, 14 days for `BIWEEKLY`, and one calendar month for `MONTHLY`
(same time of day; `MakeDay` of the next calendar month with the same day
of month, which in particular equals the same day of the next month
whenever that day exists, and otherwise rolls over past the month end
following the host calendar's rules); any other cadence value returns the
instant unchanged. -/
theorem C6_addInterval_cadences (t : Int) :
    addInterval t Interval.WEEKLY = t + 7 * msPerDay ∧
    addInterval t Interval.BIWEEKLY = t + 14 * msPerDay ∧
    addInterval t Interval.OTHER = t ∧
    ∀ y m d : Int, civilFromDays (jsDay t) = (y, m, d) →
      jsDay (addInterval t Interval.MONTHLY) =
          daysFromCivil (if m = 12 then y + 1 else y) (if m = 12 then 1 else m + 1) d ∧
      jsTimeWithinDay (addInterval t Interval.MONTHLY) = jsTimeWithinDay t ∧
      (d ≤ daysInMonth (if m = 12 then y + 1 else y) (if m = 12 then 1 else m + 1) →
        civilFromDays (jsDay (addInterval t Interval.MONTHLY)) =
          (if m = 12 then y + 1 else y, if m = 12 then 1 else m + 1, d)) := by
  refine ⟨setUTCDate_add t 7, setUTCDate_add t 14, rfl, ?_⟩
  intro y m d hc
  have hv := civilFromDays_valid (jsDay t)
  rw [hc] at hv
  dsimp only at hv
  obtain ⟨hm1, hm2, hd1, _⟩ := hv
  have hnext := setUTCMonth_next t y m d hc hm1 hm2
  have hM21 : 1 ≤ (if m = 12 then 1 else m + 1) := by split <;> omega
  have hM22 : (if m = 12 then 1 else m + 1) ≤ 12 := by split <;> omega
  have hD : jsDay (daysFromCivil (if m = 12 then y + 1 else y)
      (if m = 12 then 1 else m + 1) d * msPerDay + jsTimeWithinDay t)
      = daysFromCivil (if m = 12 then y + 1 else y) (if m = 12 then 1 else m + 1) d := by
    unfold jsDay jsTimeWithinDay msPerDay
    omega
  refine ⟨?_, ?_, ?_⟩
  · rw [hnext, hD]
  · rw [hnext]
    unfold jsTimeWithinDay msPerDay
    omega
  · intro hd
    rw [hnext, hD]
    exact civilFromDays_daysFromCivil _ _ d hM21 hM22 hd1 hd

/-- Witness for C6: one week after 2024-01-31T00:00Z is exactly
`7 * 86400000` ms later, and one month after 1970-01-01T00:00Z is
1970-02-01T00:00Z. -/
theorem C6_addInterval_cadences_witness :
    addInterval 1706659200000 Interval.WEEKLY = 1706659200000 + 7 * msPerDay ∧
    civilFromDays (jsDay (addInterval 0 Interval.MONTHLY)) = (1970, 2, 1) := by
  constructor
  · exact (C6_addInterval_cadences 1706659200000).1
  · have h := (C6_addInterval_cadences 0).2.2.2 1970 1 1 (by decide)
    have h2 := h.2.2 (by decide)
    simpa using h2

/-! ## Bounded-concurrency executor: `mapWithConcurrency` (lines 72–90)

`mapWithConcurrency items concurrency mapper` spawns
`Math.max(1, concurrency)` async workers over a shared cursor `nextIndex`;
each worker repeatedly claims `nextIndex++` (atomic under the JS
single-threaded event loop: there is no `await` between the read and the
increment), returns when the claimed index is out of range, and otherwise
awaits `mapper(items[current], current)` and stores the result at
`results[current]`.  The call returns `await Promise.all(workers)` followed
by `results`, so it rejects with the first worker rejection (in real time)
and otherwise resolves with `results`.

The model is a small-step transition system.  The mapper is modelled as a
pure outcome function `T → Nat → Except E R` (what the mapper's promise for
a given item and index eventually settles with); the nondeterministic
completion order of the in-flight promises is the scheduler's choice of
which enabled transition fires next.  `dispatched` and `settled` are ghost
logs of mapper invocations and completions in real-time order. -/

namespace MapWC

/-- Status of one worker of `mapWithConcurrency`: at the top of the
`while (true)` loop, suspended on `await mapper(items[current], current)`
for index `i`, or terminated (normal return, or killed by a rejection
propagating out of the worker's `await`). -/
inductive WStatus where
  | ready
  | awaiting (i : Nat)
  | done
deriving DecidableEq, Repr

/-- State of one `mapWithConcurrency` call: the shared `nextIndex` cursor,
the `results` array (`none` = hole not yet written), the first rejection
recorded by `Promise.all` (if any), the workers, and the two ghost logs. -/
structure ExecState (R E : Type) where
  next : Nat
  results : List (Option R)
  failed : Option E
  workers : List WStatus
  dispatched : List Nat
  settled : List (Nat × Except E R)

/-- `Math.max(1, concurrency)`: the number of workers spawned. -/
def workerCount (concurrency : Int) : Nat := (max 1 concurrency).toNat

/-- State at the start of the call: `results = new Array(items.length)`,
`nextIndex = 0`, all workers at the top of their loop. -/
def initState {R E : Type} (items : List T) (concurrency : Int) : ExecState R E :=
  { next := 0
    results := List.replicate items.length none
    failed := none
    workers := List.replicate (workerCount concurrency) WStatus.ready
    dispatched := []
    settled := [] }

/-- One scheduler step of the call.  `claim`/`exit` model the synchronous
`const current = nextIndex++; if (current >= items.length) return;` part of a
ready worker (claim-and-increment plus dispatch happen without an
intervening suspension point); `settleOk`/`settleErr` model the settlement
of the awaited mapper promise: on fulfilment the worker stores the value at
`results[current]` and loops, on rejection the worker's own promise rejects
and `Promise.all` records the first such rejection. -/
inductive Step (items : List T) (mapper : T → Nat → Except E R) :
    ExecState R E → ExecState R E → Prop where
  | claim (w : Nat) (s : ExecState R E)
      (hw : s.workers[w]? = some WStatus.ready)
      (hlt : s.next < items.length) :
      Step items mapper s
        { s with next := s.next + 1
                 workers := s.workers.set w (WStatus.awaiting s.next)
                 dispatched := s.dispatched ++ [s.next] }
  | exit (w : Nat) (s : ExecState R E)
      (hw : s.workers[w]? = some WStatus.ready)
      (hge : items.length ≤ s.next) :
      Step items mapper s
        { s with next := s.next + 1
                 workers := s.workers.set w WStatus.done }
  | settleOk (w i : Nat) (x : T) (r : R) (s : ExecState R E)
      (hw : s.workers[w]? = some (WStatus.awaiting i))
      (hx : items[i]? = some x)
      (hr : mapper x i = Except.ok r) :
      Step items mapper s
        { s with results := s.results.set i (some r)
                 workers := s.workers.set w WStatus.ready
                 settled := s.settled ++ [(i, Except.ok r)] }
  | settleErr (w i : Nat) (x : T) (e : E) (s : ExecState R E)
      (hw : s.workers[w]? = some (WStatus.awaiting i))
      (hx : items[i]? = some x)
      (hr : mapper x i = Except.error e) :
      Step items mapper s
        { s with failed := some (s.failed.getD e)
                 workers := s.workers.set w WStatus.done
                 settled := s.settled ++ [(i, Except.error e)] }

/-- Multi-step reachability of the scheduler. -/
def Reaches (items : List T) (mapper : T → Nat → Except E R) :
    ExecState R E → ExecState R E → Prop :=
  Relation.ReflTransGen (Step items mapper)

/-- A state in which every worker promise has settled, i.e. the
`Promise.all` of all workers has settled. -/
def Complete (s : ExecState R E) : Prop :=
  ∀ w ∈ s.workers, w = WStatus.done

/-- What the whole `mapWithConcurrency` call settles with: rejection with
the first worker rejection if there is one, else fulfilment with the
`results` array.  Fulfilled mapper results that settle after a rejection
are still written to `results` by their workers but `results` is never
returned to the caller in that case. -/
def outcome (s : ExecState R E) : Except E (List (Option R)) :=
  match s.failed with
  | some e => Except.error e
  | none => Except.ok s.results

/-- The first error in a completion log. -/
def firstError (l : List (Nat × Except E R)) : Option E :=
  l.findSome? fun p =>
    match p.2 with
    | Except.error e => some e
    | Except.ok _ => none

/-- The sequential reference mapping of the spec: apply the mapper to each
item in input order (`g x i` is the mapper's result for item `x` at index
`i`), with no concurrency at all. -/
def seqMapIdx (g : T → Nat → R) : List T → Nat → List R
  | [], _ => []
  | x :: xs, i => g x i :: seqMapIdx g xs (i + 1)

/-- Sequential mapping over a whole list, indices starting at 0. -/
def seqMapSpec (items : List T) (g : T → Nat → R) : List R :=
  seqMapIdx g items 0

theorem seqMapIdx_length (g : T → Nat → R) :
    ∀ (l : List T) (i0 : Nat), (seqMapIdx g l i0).length = l.length := by
  intro l
  induction l with
  | nil => intro i0; rfl
  | cons x xs ih => intro i0; simp [seqMapIdx, ih]

theorem seqMapIdx_getElem? (g : T → Nat → R) :
    ∀ (l : List T) (i0 i : Nat),
      (seqMapIdx g l i0)[i]? = (l[i]?).map (fun x => g x (i0 + i)) := by
  intro l
  induction l with
  | nil => intro i0 i; simp [seqMapIdx]
  | cons x xs ih =>
    intro i0 i
    cases i with
    | zero => simp [seqMapIdx]
    | succ i =>
      simp only [seqMapIdx, List.getElem?_cons_succ, ih (i0 + 1) i]
      have : i0 + 1 + i = i0 + (i + 1) := by omega
      rw [this]

theorem seqMapSpec_getElem? (items : List T) (g : T → Nat → R) (i : Nat) :
    (seqMapSpec items g)[i]? = (items[i]?).map (fun x => g x i) := by
  unfold seqMapSpec
  rw [seqMapIdx_getElem?]
  simp

/-- Inductive invariant of one `mapWithConcurrency` call with worker count
`W`: lengths are stable, the dispatch log is exactly the cursor prefix of
the index range, awaited indices are in range and already claimed, every
claimed in-range index is either awaited by some worker or settled, settled
events carry the mapper's true outcome for their index, fulfilled outcomes
are stored at their slot in `results`, the recorded rejection is the first
error in real-time settlement order, and a worker can only have terminated
after the cursor ran past the end or after some rejection. -/
structure ExecInv (items : List T) (mapper : T → Nat → Except E R) (W : Nat)
    (s : ExecState R E) : Prop where
  results_len : s.results.length = items.length
  workers_len : s.workers.length = W
  dispatched_eq : s.dispatched = List.range (min s.next items.length)
  awaiting_lt : ∀ w i : Nat, s.workers[w]? = some (WStatus.awaiting i) →
    i < items.length ∧ i < s.next
  coverage : ∀ i : Nat, i < s.next → i < items.length →
    (∃ w : Nat, s.workers[w]? = some (WStatus.awaiting i)) ∨ ∃ out, (i, out) ∈ s.settled
  settled_valid : ∀ p ∈ s.settled, ∃ x, items[p.1]? = some x ∧ mapper x p.1 = p.2
  results_ok : ∀ (i : Nat) (r : R), (i, Except.ok r) ∈ s.settled → s.results[i]? = some (some r)
  failed_eq : s.failed = firstError s.settled
  done_next : ∀ w : Nat, s.workers[w]? = some WStatus.done →
    items.length ≤ s.next ∨ s.failed.isSome = true

/-- The invariant holds initially. -/
theorem execInv_init (items : List T) (mapper : T → Nat → Except E R)
    (concurrency : Int) :
    ExecInv items mapper (workerCount concurrency)
      (initState (R := R) (E := E) items concurrency) := by
  refine
    { results_len := by simp [initState]
      workers_len := by simp [initState]
      dispatched_eq := by simp [initState]
      awaiting_lt := ?_
      coverage := by intro i h _; simp [initState] at h
      settled_valid := by intro p hp; simp [initState] at hp
      results_ok := by intro i r h; simp [initState] at h
      failed_eq := by simp [initState, firstError]
      done_next := ?_ }
  · intro w i h
    simp only [initState, List.getElem?_replicate] at h
    split at h
    · exact absurd (Option.some.inj h) (by simp)
    · exact absurd h (by simp)
  · intro w h
    simp only [initState, List.getElem?_replicate] at h
    split at h
    · exact absurd (Option.some.inj h) (by simp)
    · exact absurd h (by simp)

/-- The invariant is preserved by every scheduler step. -/
theorem ExecInv.step {items : List T} {mapper : T → Nat → Except E R} {W : Nat}
    {s t : ExecState R E} (inv : ExecInv items mapper W s)
    (hst : Step items mapper s t) : ExecInv items mapper W t := by
  cases hst with
  | claim w s hw hlt =>
    refine
      { results_len := inv.results_len
        workers_len := by dsimp only; rw [List.length_set]; exact inv.workers_len
        dispatched_eq := ?_
        awaiting_lt := ?_
        coverage := ?_
        settled_valid := inv.settled_valid
        results_ok := inv.results_ok
        failed_eq := inv.failed_eq
        done_next := ?_ }
    · show s.dispatched ++ [s.next] = List.range (min (s.next + 1) items.length)
      rw [inv.dispatched_eq]
      have h1 : min s.next items.length = s.next := by omega
      have h2 : min (s.next + 1) items.length = s.next + 1 := by omega
      rw [h1, h2, List.range_succ]
    · dsimp only
      intro w' i h'
      by_cases hww : w = w'
      · subst hww
        rw [List.getElem?_set_self', hw] at h'
        simp at h'
        exact ⟨by omega, by omega⟩
      · rw [List.getElem?_set_ne hww] at h'
        have := inv.awaiting_lt w' i h'
        exact ⟨this.1, by omega⟩
    · dsimp only
      intro i hi hiN
      by_cases hin : i = s.next
      · subst hin
        left
        exact ⟨w, by rw [List.getElem?_set_self', hw]; rfl⟩
      · rcases inv.coverage i (by omega) hiN with ⟨w', hw'⟩ | hs
        · left
          by_cases hww : w = w'
          · subst hww; rw [hw] at hw'; exact absurd (Option.some.inj hw') (by simp)
          · exact ⟨w', by rw [List.getElem?_set_ne hww]; exact hw'⟩
        · exact Or.inr hs
    · dsimp only
      intro w' h'
      by_cases hww : w = w'
      · subst hww
        rw [List.getElem?_set_self', hw] at h'
        exact absurd (Option.some.inj h') (by simp)
      · rw [List.getElem?_set_ne hww] at h'
        rcases inv.done_next w' h' with h | h
        · exact Or.inl (by omega)
        · exact Or.inr h
  | exit w s hw hge =>
    refine
      { results_len := inv.results_len
        workers_len := by dsimp only; rw [List.length_set]; exact inv.workers_len
        dispatched_eq := ?_
        awaiting_lt := ?_
        coverage := ?_
        settled_valid := inv.settled_valid
        results_ok := inv.results_ok
        failed_eq := inv.failed_eq
        done_next := fun _ _ => Or.inl (by dsimp only; omega) }
    · show s.dispatched = List.range (min (s.next + 1) items.length)
      rw [inv.dispatched_eq]
      congr 1
      omega
    · dsimp only
      intro w' i h'
      by_cases hww : w = w'
      · subst hww
        rw [List.getElem?_set_self', hw] at h'
        exact absurd (Option.some.inj h') (by simp)
      · rw [List.getElem?_set_ne hww] at h'
        have := inv.awaiting_lt w' i h'
        exact ⟨this.1, by omega⟩
    · dsimp only
      intro i hi hiN
      rcases inv.coverage i (by omega) hiN with ⟨w', hw'⟩ | hs
      · left
        by_cases hww : w = w'
        · subst hww; rw [hw] at hw'; exact absurd (Option.some.inj hw') (by simp)
        · exact ⟨w', by rw [List.getElem?_set_ne hww]; exact hw'⟩
      · exact Or.inr hs
  | settleOk w i x r s hw hx hr =>
    have hiN : i < items.length ∧ i < s.next := inv.awaiting_lt w i hw
    have hrl := inv.results_len
    refine
      { results_len := by dsimp only; rw [List.length_set]; exact inv.results_len
        workers_len := by dsimp only; rw [List.length_set]; exact inv.workers_len
        dispatched_eq := inv.dispatched_eq
        awaiting_lt := ?_
        coverage := ?_
        settled_valid := ?_
        results_ok := ?_
        failed_eq := ?_
        done_next := ?_ }
    · dsimp only
      intro w' i' h'
      by_cases hww : w = w'
      · subst hww
        rw [List.getElem?_set_self', hw] at h'
        exact absurd (Option.some.inj h') (by simp)
      · rw [List.getElem?_set_ne hww] at h'
        exact inv.awaiting_lt w' i' h'
    · dsimp only
      intro i' hi' hiN'
      rcases inv.coverage i' hi' hiN' with ⟨w', hw'⟩ | ⟨out, hs⟩
      · by_cases hww : w = w'
        · subst hww
          rw [hw'] at hw
          have hii : WStatus.awaiting i' = WStatus.awaiting i := Option.some.inj hw
          cases hii
          exact Or.inr ⟨Except.ok r, by simp⟩
        · exact Or.inl ⟨w', by rw [List.getElem?_set_ne hww]; exact hw'⟩
      · exact Or.inr ⟨out, by simp [hs]⟩
    · dsimp only
      intro p hp
      rw [List.mem_append] at hp
      rcases hp with hp | hp
      · exact inv.settled_valid p hp
      · simp only [List.mem_singleton] at hp
        subst hp
        exact ⟨x, hx, hr⟩
    · dsimp only
      intro i' r' hmem
      rw [List.mem_append] at hmem
      rcases hmem with hmem | hmem
      · by_cases hii : i = i'
        · subst hii
          obtain ⟨x', hx', hr'⟩ := inv.settled_valid _ hmem
          rw [hx] at hx'
          cases Option.some.inj hx'
          rw [hr] at hr'
          cases Except.ok.inj hr'
          rw [List.getElem?_set_self']
          have hro := inv.results_ok i r hmem
          rw [hro]
          rfl
        · rw [List.getElem?_set_ne hii]
          exact inv.results_ok i' r' hmem
      · simp only [List.mem_singleton, Prod.mk.injEq] at hmem
        obtain ⟨hi1, hi2⟩ := hmem
        cases Except.ok.inj hi2
        rw [hi1, List.getElem?_set_self']
        rw [List.getElem?_eq_getElem (show i < s.results.length by omega)]
        rfl
    · show s.failed = firstError (s.settled ++ [(i, Except.ok r)])
      unfold firstError
      rw [List.findSome?_append]
      simp only [List.findSome?_cons, List.findSome?_nil]
      rw [inv.failed_eq]
      unfold firstError
      cases List.findSome? _ s.settled <;> rfl
    · dsimp only
      intro w' h'
      by_cases hww : w = w'
      · subst hww
        rw [List.getElem?_set_self', hw] at h'
        exact absurd (Option.some.inj h') (by simp)
      · rw [List.getElem?_set_ne hww] at h'
        exact inv.done_next w' h'
  | settleErr w i x e s hw hx hr =>
    have hiN : i < items.length ∧ i < s.next := inv.awaiting_lt w i hw
    refine
      { results_len := inv.results_len
        workers_len := by dsimp only; rw [List.length_set]; exact inv.workers_len
        dispatched_eq := inv.dispatched_eq
        awaiting_lt := ?_
        coverage := ?_
        settled_valid := ?_
        results_ok := ?_
        failed_eq := ?_
        done_next := fun _ _ => Or.inr (by dsimp only; rfl) }
    · dsimp only
      intro w' i' h'
      by_cases hww : w = w'
      · subst hww
        rw [List.getElem?_set_self', hw] at h'
        exact absurd (Option.some.inj h') (by simp)
      · rw [List.getElem?_set_ne hww] at h'
        exact inv.awaiting_lt w' i' h'
    · dsimp only
      intro i' hi' hiN'
      rcases inv.coverage i' hi' hiN' with ⟨w', hw'⟩ | ⟨out, hs⟩
      · by_cases hww : w = w'
        · subst hww
          rw [hw'] at hw
          have hii : WStatus.awaiting i' = WStatus.awaiting i := Option.some.inj hw
          cases hii
          exact Or.inr ⟨Except.error e, by simp⟩
        · exact Or.inl ⟨w', by rw [List.getElem?_set_ne hww]; exact hw'⟩
      · exact Or.inr ⟨out, by simp [hs]⟩
    · dsimp only
      intro p hp
      rw [List.mem_append] at hp
      rcases hp with hp | hp
      · exact inv.settled_valid p hp
      · simp only [List.mem_singleton] at hp
        subst hp
        exact ⟨x, hx, hr⟩
    · dsimp only
      intro i' r' hmem
      rw [List.mem_append] at hmem
      rcases hmem with hmem | hmem
      · exact inv.results_ok i' r' hmem
      · simp at hmem
    · show some (s.failed.getD e) = firstError (s.settled ++ [(i, Except.error e)])
      unfold firstError
      rw [List.findSome?_append]
      simp only [List.findSome?_cons, List.findSome?_nil]
      rw [inv.failed_eq]
      unfold firstError
      cases List.findSome? _ s.settled <;> rfl

/-- The invariant holds in every reachable state. -/
theorem execInv_reaches {items : List T} {mapper : T → Nat → Except E R}
    {concurrency : Int} {s : ExecState R E}
    (h : Reaches items mapper (initState items concurrency) s) :
    ExecInv items mapper (workerCount concurrency) s := by
  induction h with
  | refl => exact execInv_init items mapper concurrency
  | tail _ hstep ih => exact ih.step hstep

/-- There is at least one worker, for every concurrency argument. -/
theorem workerCount_pos (concurrency : Int) : 0 < workerCount concurrency := by
  unfold workerCount
  omega

/-- In a complete state no worker is awaiting. -/
theorem complete_not_awaiting {s : ExecState R E} (hc : Complete s) (w i : Nat) :
    s.workers[w]? ≠ some (WStatus.awaiting i) := by
  intro h
  have hmem : WStatus.awaiting i ∈ s.workers := List.mem_iff_getElem?.2 ⟨w, h⟩
  have := hc _ hmem
  simp at this

/-- If no mapper application over the input list fails, no rejection is
ever recorded. -/
theorem allOk_failed_none {items : List T} {mapper : T → Nat → Except E R} {W : Nat}
    {s : ExecState R E} (inv : ExecInv items mapper W s) {g : T → Nat → R}
    (hok : ∀ (i : Nat) (x : T), items[i]? = some x → mapper x i = Except.ok (g x i)) :
    s.failed = none := by
  rw [inv.failed_eq]
  unfold firstError
  rw [List.findSome?_eq_none_iff]
  intro p hp
  obtain ⟨x, hx, hm⟩ := inv.settled_valid p hp
  rw [hok p.1 x hx] at hm
  rw [← hm]

/-- In a complete state with no recorded rejection the cursor has run past
the end of the input. -/
theorem complete_next {items : List T} {mapper : T → Nat → Except E R} {W : Nat}
    {s : ExecState R E} (inv : ExecInv items mapper W s) (hW : 0 < W)
    (hc : Complete s) (hnone : s.failed = none) : items.length ≤ s.next := by
  have hlen : 0 < s.workers.length := by rw [inv.workers_len]; exact hW
  have hw0 : s.workers[0]? = some s.workers[0] := List.getElem?_eq_getElem hlen
  have hdone : s.workers[0] = WStatus.done := hc _ (List.getElem_mem hlen)
  rw [hdone] at hw0
  rcases inv.done_next 0 hw0 with h | h
  · exact h
  · rw [hnone] at h
    simp at h

/-- In a complete state with no recorded rejection, every in-range index
has settled with the mapper's outcome for it. -/
theorem complete_settled {items : List T} {mapper : T → Nat → Except E R} {W : Nat}
    {s : ExecState R E} (inv : ExecInv items mapper W s) (hW : 0 < W)
    (hc : Complete s) (hnone : s.failed = none) :
    ∀ i : Nat, i < items.length → ∃ x, items[i]? = some x ∧ (i, mapper x i) ∈ s.settled := by
  intro i hi
  have hnext := complete_next inv hW hc hnone
  rcases inv.coverage i (by omega) hi with ⟨w, hw⟩ | ⟨out, hout⟩
  · exact absurd hw (complete_not_awaiting hc w i)
  · obtain ⟨x, hx, hm⟩ := inv.settled_valid _ hout
    exact ⟨x, hx, by rw [hm]; exact hout⟩

/-- Outcome of every complete execution with a mapper none of whose
applications over the list fails: the sequential map, in input order. -/
theorem allOk_outcome
    (items : List T) (concurrency : Int) (mapper : T → Nat → Except E R)
    (g : T → Nat → R)
    (hok : ∀ (i : Nat) (x : T), items[i]? = some x → mapper x i = Except.ok (g x i))
    (s : ExecState R E)
    (hreach : Reaches items mapper (initState items concurrency) s)
    (hdone : Complete s) :
    outcome s = Except.ok ((seqMapSpec items g).map some) := by
  have inv := execInv_reaches hreach
  have hW := workerCount_pos concurrency
  have hnone := allOk_failed_none inv hok
  unfold outcome
  rw [hnone]
  dsimp only
  congr 1
  apply List.ext_getElem?
  intro n
  rw [List.getElem?_map, seqMapSpec_getElem?]
  by_cases hn : n < items.length
  · obtain ⟨x, hx, hmem⟩ := complete_settled inv hW hdone hnone n hn
    rw [hok n x hx] at hmem
    have := inv.results_ok n (g x n) hmem
    rw [this, hx]
    rfl
  · rw [List.getElem?_eq_none (by omega : items.length ≤ n),
      List.getElem?_eq_none (by rw [inv.results_len]; omega)]
    rfl

/-- **C1**: for every input list, every concurrency bound, and every mapper
none of whose applications over the list fails (its outcome at item `x`,
index `i` is `Except.ok (g x i)`), every complete execution of
`mapWithConcurrency` settles with exactly the sequential map of the input
in input order — `results[i]` holds the mapper's result for `items[i]`,
regardless of which interleaving (completion order) the scheduler chose. -/
theorem C1_mapWithConcurrency_order_preserving
    (items : List T) (concurrency : Int) (mapper : T → Nat → Except E R)
    (g : T → Nat → R)
    (hok : ∀ (i : Nat) (x : T), items[i]? = some x → mapper x i = Except.ok (g x i))
    (s : ExecState R E)
    (hreach : Reaches items mapper (initState items concurrency) s)
    (hdone : Complete s) :
    outcome s = Except.ok ((seqMapSpec items g).map some) :=
  allOk_outcome items concurrency mapper g hok s hreach hdone

/-- **C2**: if any single mapper application over the input fails, every
complete execution of `mapWithConcurrency` rejects; the caller observes
exactly the first rejection in settlement order, which is a genuine mapper
error for some input index.  Fulfilled results that settle before or after
that rejection are only written into the discarded `results` array and
never surface to the caller (the outcome carries the error alone). -/
theorem C2_mapWithConcurrency_first_failure
    (items : List T) (concurrency : Int) (mapper : T → Nat → Except E R)
    (hfail : ∃ (i : Nat) (x : T) (e : E), items[i]? = some x ∧ mapper x i = Except.error e)
    (s : ExecState R E)
    (hreach : Reaches items mapper (initState items concurrency) s)
    (hdone : Complete s) :
    ∃ e : E, outcome s = Except.error e ∧ firstError s.settled = some e ∧
      ∃ (i : Nat) (x : T), items[i]? = some x ∧ mapper x i = Except.error e := by
  have inv := execInv_reaches hreach
  have hW := workerCount_pos concurrency
  rcases hfs : s.failed with _ | e
  · exfalso
    obtain ⟨i, x, e, hx, hm⟩ := hfail
    have hi : i < items.length := by
      rcases List.getElem?_eq_some.1 hx with ⟨h, _⟩
      exact h
    obtain ⟨x', hx', hmem⟩ := complete_settled inv hW hdone hfs i hi
    rw [hx] at hx'
    cases Option.some.inj hx'
    have hnone : firstError s.settled = none := by rw [← inv.failed_eq]; exact hfs
    unfold firstError at hnone
    rw [List.findSome?_eq_none_iff] at hnone
    have := hnone _ hmem
    rw [hm] at this
    simp at this
  · refine ⟨e, by unfold outcome; rw [hfs], ?_, ?_⟩
    · rw [← inv.failed_eq]
      exact hfs
    · have hfe : firstError s.settled = some e := by rw [← inv.failed_eq]; exact hfs
      unfold firstError at hfe
      obtain ⟨p, hp, hpe⟩ := List.exists_of_findSome?_eq_some hfe
      obtain ⟨x, hx, hm⟩ := inv.settled_valid p hp
      rcases hq : p.2 with e' | r
      · rw [hq] at hpe
        dsimp only at hpe
        cases Option.some.inj hpe
        exact ⟨p.1, x, hx, by rw [hm, hq]⟩
      · rw [hq] at hpe
        simp at hpe

/-- `true` exactly for a worker that has an operation in flight. -/
def WStatus.isAwaiting : WStatus → Bool
  | WStatus.awaiting _ => true
  | _ => false

/-- Number of mapper applications currently dispatched but not settled. -/
def countAwaiting (s : ExecState R E) : Nat :=
  (s.workers.filter WStatus.isAwaiting).length

/-- **C5**: for every input list and every bound `K ≥ 1`, at no reachable
point of a `mapWithConcurrency` run are more than `K` mapper applications
simultaneously unresolved: each of the `K` workers has at most one
operation in flight. -/
theorem C5_mapWithConcurrency_bounded
    (items : List T) (concurrency : Int) (hK : 1 ≤ concurrency)
    (mapper : T → Nat → Except E R) (s : ExecState R E)
    (hreach : Reaches items mapper (initState items concurrency) s) :
    (countAwaiting s : Int) ≤ concurrency := by
  have inv := execInv_reaches hreach
  have h1 : countAwaiting s ≤ s.workers.length :=
    List.length_filter_le WStatus.isAwaiting s.workers
  rw [inv.workers_len] at h1
  unfold workerCount at h1
  omega

/-- Weight of one worker for the termination measure. -/
def wMeasure : WStatus → Nat
  | WStatus.ready => 1
  | WStatus.awaiting _ => 2
  | WStatus.done => 0

/-- Termination measure of an executor state: remaining cursor budget plus
the workers' weights.  Every scheduler step strictly decreases it. -/
def execMeasure (N : Nat) (s : ExecState R E) : Nat :=
  2 * (N - min s.next N) + (s.workers.map wMeasure).sum

theorem sum_map_set (f : α → Nat) :
    ∀ (l : List α) (w : Nat) (a b : α), l[w]? = some a →
      ((l.set w b).map f).sum + f a = (l.map f).sum + f b := by
  intro l
  induction l with
  | nil => intro w a b h; simp at h
  | cons x xs ih =>
    intro w a b h
    cases w with
    | zero =>
      simp only [List.getElem?_cons_zero, Option.some.injEq] at h
      subst h
      simp only [List.set_cons_zero, List.map_cons, List.sum_cons]
      omega
    | succ w =>
      simp only [List.getElem?_cons_succ] at h
      have := ih w a b h
      simp only [List.set_cons_succ, List.map_cons, List.sum_cons]
      omega

/-- Every scheduler step strictly decreases the measure, so every
execution of `mapWithConcurrency` is finite: the call terminates. -/
theorem step_measure {items : List T} {mapper : T → Nat → Except E R}
    {s t : ExecState R E} (h : Step items mapper s t) :
    execMeasure items.length t < execMeasure items.length s := by
  cases h with
  | claim w s hw hlt =>
    unfold execMeasure
    dsimp only
    have hsum := sum_map_set wMeasure s.workers w WStatus.ready (WStatus.awaiting s.next) hw
    rw [show wMeasure WStatus.ready = 1 from rfl,
      show wMeasure (WStatus.awaiting s.next) = 2 from rfl] at hsum
    have h1 : min s.next items.length = s.next := by omega
    have h2 : min (s.next + 1) items.length ≤ s.next + 1 := by omega
    have h3 : s.next + 1 ≤ items.length → min (s.next + 1) items.length = s.next + 1 := by omega
    omega
  | exit w s hw hge =>
    unfold execMeasure
    dsimp only
    have hsum := sum_map_set wMeasure s.workers w WStatus.ready WStatus.done hw
    rw [show wMeasure WStatus.ready = 1 from rfl,
      show wMeasure WStatus.done = 0 from rfl] at hsum
    have h1 : min s.next items.length = items.length := by omega
    have h2 : min (s.next + 1) items.length = items.length := by omega
    omega
  | settleOk w i x r s hw hx hr =>
    unfold execMeasure
    dsimp only
    have hsum := sum_map_set wMeasure s.workers w (WStatus.awaiting i) WStatus.ready hw
    rw [show wMeasure (WStatus.awaiting i) = 2 from rfl,
      show wMeasure WStatus.ready = 1 from rfl] at hsum
    omega
  | settleErr w i x e s hw hx hr =>
    unfold execMeasure
    dsimp only
    have hsum := sum_map_set wMeasure s.workers w (WStatus.awaiting i) WStatus.done hw
    rw [show wMeasure (WStatus.awaiting i) = 2 from rfl,
      show wMeasure WStatus.done = 0 from rfl] at hsum
    omega

/-- A reachable state from which no step is possible is complete: the call
cannot get stuck with work outstanding. -/
theorem stuck_complete {items : List T} {mapper : T → Nat → Except E R} {W : Nat}
    {s : ExecState R E} (inv : ExecInv items mapper W s)
    (hstuck : ¬ ∃ t, Step items mapper s t) : Complete s := by
  intro st hmem
  obtain ⟨w, hw⟩ := List.mem_iff_getElem?.1 hmem
  cases st with
  | ready =>
    exfalso
    apply hstuck
    by_cases hlt : s.next < items.length
    · exact ⟨_, Step.claim w s hw hlt⟩
    · exact ⟨_, Step.exit w s hw (by omega)⟩
  | awaiting i =>
    exfalso
    apply hstuck
    have hi := inv.awaiting_lt w i hw
    have hx := List.getElem?_eq_getElem hi.1
    rcases hr : mapper items[i] i with e | r
    · exact ⟨_, Step.settleErr w i items[i] e s hw hx hr⟩
    · exact ⟨_, Step.settleOk w i items[i] r s hw hx hr⟩
  | done => rfl

/-- **C9**: `mapWithConcurrency` is total at its public interface even
outside the spec's precondition.  A concurrency argument of zero or a
negative number starts the call in exactly the state of bound 1
(`Math.max(1, concurrency)`); every scheduler step strictly decreases a
natural-number measure, so every execution — including on the empty list —
terminates; a reachable state with no enabled step has all workers
terminated; and when no mapper application fails, every complete execution
has dispatched the mapper exactly once per index (the dispatch log is
exactly `range items.length`, in claim order) and settles with a results
list of exactly `items.length` entries, with no out-of-bounds access
(`results` keeps length `items.length` throughout). -/
theorem C9_mapWithConcurrency_total (items : List T) (concurrency : Int)
    (mapper : T → Nat → Except E R) (g : T → Nat → R) :
    (concurrency ≤ 0 → initState (R := R) (E := E) items concurrency = initState items 1) ∧
    (∀ s t : ExecState R E, Step items mapper s t →
      execMeasure items.length t < execMeasure items.length s) ∧
    (∀ s : ExecState R E, Reaches items mapper (initState items concurrency) s →
      (¬ ∃ t, Step items mapper s t) → Complete s) ∧
    (∀ s : ExecState R E,
      (∀ (i : Nat) (x : T), items[i]? = some x → mapper x i = Except.ok (g x i)) →
      Reaches items mapper (initState items concurrency) s → Complete s →
      s.dispatched = List.range items.length ∧
      s.results.length = items.length ∧
      ∃ l, outcome s = Except.ok l ∧ l.length = items.length) := by
  refine ⟨?_, fun s t h => step_measure h, ?_, ?_⟩
  · intro hc
    unfold initState workerCount
    have : (max 1 concurrency).toNat = (max 1 (1 : Int)).toNat := by omega
    rw [this]
  · intro s hreach hstuck
    exact stuck_complete (execInv_reaches hreach) hstuck
  · intro s hok hreach hdone
    have inv := execInv_reaches hreach
    have hW := workerCount_pos concurrency
    have hnone := allOk_failed_none inv hok
    have hnext := complete_next inv hW hdone hnone
    refine ⟨?_, inv.results_len, s.results, ?_, inv.results_len⟩
    · rw [inv.dispatched_eq]
      congr 1
      omega
    · unfold outcome
      rw [hnone]

/-! ### A concrete run of the executor, used by the claim witnesses -/

/-- A concrete mapper that never fails. -/
def demoMapper : Nat → Nat → Except Unit Nat := fun x i => Except.ok (x + i)

/-- The final state of running `mapWithConcurrency [7] 1 demoMapper`. -/
def demoState : ExecState Nat Unit :=
  { next := 2
    results := [some 7]
    failed := none
    workers := [WStatus.done]
    dispatched := [0]
    settled := [(0, Except.ok 7)] }

theorem demoReach : Reaches [7] demoMapper (initState [7] 1) demoState := by
  refine Relation.ReflTransGen.head (Step.claim 0 _ rfl (by decide))
    (Relation.ReflTransGen.head (Step.settleOk 0 0 7 7 _ rfl rfl rfl)
      (Relation.ReflTransGen.head (Step.exit 0 _ rfl (by decide))
        Relation.ReflTransGen.refl))

theorem demoComplete : Complete demoState := by
  intro w hw
  exact List.eq_of_mem_singleton hw

/-- A concrete mapper that always fails. -/
def demoFailMapper : Nat → Nat → Except String Nat := fun _ _ => Except.error "boom"

/-- The final state of running `mapWithConcurrency [7] 1 demoFailMapper`. -/
def demoFailState : ExecState Nat String :=
  { next := 1
    results := [none]
    failed := some "boom"
    workers := [WStatus.done]
    dispatched := [0]
    settled := [(0, Except.error "boom")] }

theorem demoFailReach : Reaches [7] demoFailMapper (initState [7] 1) demoFailState := by
  refine Relation.ReflTransGen.head (Step.claim 0 _ rfl (by decide))
    (Relation.ReflTransGen.head (Step.settleErr 0 0 7 "boom" _ rfl rfl rfl)
      Relation.ReflTransGen.refl)

theorem demoFailComplete : Complete demoFailState := by
  intro w hw
  exact List.eq_of_mem_singleton hw

/-- No step is enabled in `demoState`. -/
theorem demoStuck : ¬ ∃ t, Step [7] demoMapper demoState t := by
  rintro ⟨t, hstep⟩
  have hsing : ∀ (w : Nat) (st : WStatus),
      (demoState.workers)[w]? = some st → st = WStatus.done := by
    intro w st h
    match w with
    | 0 => exact (Option.some.inj h).symm
    | w + 1 => simp [demoState] at h
  cases hstep with
  | claim w s hw hlt => exact absurd (hsing w _ hw) (by simp)
  | exit w s hw hge => exact absurd (hsing w _ hw) (by simp)
  | settleOk w i x r s hw hx hr => exact absurd (hsing w _ hw) (by simp)
  | settleErr w i x e s hw hx hr => exact absurd (hsing w _ hw) (by simp)

/-- Witness for C1: the concrete complete run of
`mapWithConcurrency [7] 1` with mapper `fun x i => ok (x + i)` settles
with exactly the sequential map `[7 + 0]`. -/
theorem C1_mapWithConcurrency_order_preserving_witness :
    outcome demoState = Except.ok [some 7] := by
  have h := C1_mapWithConcurrency_order_preserving [7] 1 demoMapper
    (fun x i => x + i) (fun _ _ _ => rfl) demoState demoReach demoComplete
  simpa [seqMapSpec, seqMapIdx] using h

/-- Witness for C2: the concrete complete run with the always-failing
mapper rejects with the first (and only) settlement's error. -/
theorem C2_mapWithConcurrency_first_failure_witness :
    ∃ e : String, outcome demoFailState = Except.error e ∧
      firstError demoFailState.settled = some e ∧
      ∃ (i : Nat) (x : Nat), [7][i]? = some x ∧ demoFailMapper x i = Except.error e :=
  C2_mapWithConcurrency_first_failure [7] 1 demoFailMapper
    ⟨0, 7, "boom", rfl, rfl⟩ demoFailState demoFailReach demoFailComplete

/-- Witness for C5: at the final state of the concrete bound-1 run, at
most one operation is unresolved. -/
theorem C5_mapWithConcurrency_bounded_witness :
    (countAwaiting demoState : Int) ≤ 1 :=
  C5_mapWithConcurrency_bounded [7] 1 (by norm_num) demoMapper demoState demoReach

/-- Witness for C9: concurrency `-3` starts as bound 1; the concrete
complete run is recognised as stuck-free-complete and has dispatched index
0 exactly once with a 1-element result list. -/
theorem C9_mapWithConcurrency_total_witness :
    (initState (R := Nat) (E := Unit) [7] (-3) = initState [7] 1) ∧
    Complete demoState ∧
    (demoState.dispatched = List.range 1 ∧
      demoState.results.length = 1 ∧
      ∃ l, outcome demoState = Except.ok l ∧ l.length = 1) := by
  refine ⟨(C9_mapWithConcurrency_total [7] (-3) demoMapper (fun x i => x + i)).1 (by norm_num),
    (C9_mapWithConcurrency_total [7] 1 demoMapper (fun x i => x + i)).2.2.1
      demoState demoReach demoStuck, ?_⟩
  have h := (C9_mapWithConcurrency_total [7] 1 demoMapper (fun x i => x + i)).2.2.2
    demoState (fun _ _ _ => rfl) demoReach demoComplete
  simpa using h

end MapWC

/-! ## JavaScript string semantics used by the composition step -/

/-- ECMAScript WhiteSpace/LineTerminator characters handled by
`String.prototype.trim` (the code points that actually occur in this
pipeline's text). -/
def jsIsWhitespace (c : Char) : Bool :=
  c = ' ' || c = '\t' || c = '\n' || c = '\r' || c = '\x0b' || c = '\x0c'

/-- Drop trailing JS whitespace. -/
def trimRightChars (l : List Char) : List Char :=
  (l.reverse.dropWhile jsIsWhitespace).reverse

/-- `String.prototype.trim`: drop leading and trailing JS whitespace. -/
def jsTrim (s : String) : String :=
  ⟨trimRightChars (s.data.dropWhile jsIsWhitespace)⟩

/-- JS truthiness of a `string | undefined` value: `undefined` and the
empty string are falsy. -/
def jsTruthyOptStr : Option String → Bool
  | none => false
  | some s => !s.isEmpty

/-- JS `a || b` on `string | undefined` values. -/
def jsOrStr (a b : Option String) : Option String :=
  if jsTruthyOptStr a then a else b

/-! ## Data model of the extraction and composition steps -/

/-- Modelled from the spec: `ExtractedArticle` is declared in
`src/integrations/extractor.ts`, which is not under `src/`; per the spec's
data model it carries the original snippet text/title/link and optionally
provider-fetched full content, title, fetch method and fetch error, all
optional, exactly the fields `buildPodcastInput` reads. -/
structure ExtractedArticle where
  text : Option String := none
  title : Option String := none
  link : Option String := none
  fetched_content : Option String := none
  fetched_title : Option String := none
  fetch_method : Option String := none
  fetch_error : Option String := none
deriving DecidableEq, Repr

/-- `ExtractedEmail` (userController.ts lines 28–33).  `from` is a Lean
keyword, hence the primed field name. -/
structure ExtractedEmail where
  subject : Option String := none
  from' : Option String := none
  date : Option String := none
  articles : List ExtractedArticle := []
deriving DecidableEq, Repr

/-- `GmailMessageContent` (integrations/gmail.ts): headers are a JS record
of optional strings, modelled as an association list. -/
structure GmailMessageContent where
  id : String := ""
  threadId : Option String := none
  snippet : Option String := none
  internalDate : Option String := none
  headers : List (String × String) := []
  text : String := ""
  html : Option String := none
deriving DecidableEq, Repr

/-- Result shape of the extraction collaborator `extractEmailContent`. -/
structure Extraction where
  articles : List ExtractedArticle
deriving DecidableEq, Repr

/-! ## `extractEmailsContent` (lines 198–232) -/

/-- The per-email mapper of `extractEmailsContent`: if the message has no
(truthy) HTML body, build the single-article plain-text `ExtractedEmail`
without calling the collaborator; otherwise call the extraction
collaborator (modelled as a fallible function of the html and text bodies)
and on failure fall back to the same plain-text single-article value. -/
def extractOneEmail (extractor : String → String → Except String Extraction)
    (email : GmailMessageContent) : ExtractedEmail :=
  if !jsTruthyOptStr email.html then
    { subject := email.headers.lookup "Subject"
      from' := email.headers.lookup "From"
      date := email.headers.lookup "Date"
      articles := [{ text := some email.text }] }
  else
    match extractor (email.html.getD "") email.text with
    | Except.ok extracted =>
      { subject := email.headers.lookup "Subject"
        from' := email.headers.lookup "From"
        date := email.headers.lookup "Date"
        articles := extracted.articles }
    | Except.error _ =>
      { subject := email.headers.lookup "Subject"
        from' := email.headers.lookup "From"
        date := email.headers.lookup "Date"
        articles := [{ text := some email.text }] }

/-- `extractEmailsContent`: the source fans the mapper out with
`mapWithConcurrency emails 4 ...`; since the mapper catches every
collaborator failure it never rejects, and by the executor's
order-preservation (see `MapWC.allOk_outcome` /
`extractEmailsContent_matches_executor`) the call's outcome is exactly the
sequential map used here. -/
def extractEmailsContent (extractor : String → String → Except String Extraction)
    (emails : List GmailMessageContent) : List ExtractedEmail :=
  emails.map (extractOneEmail extractor)

/-! ## `buildPodcastInput` (lines 238–274) -/

/-- Render one article: `content = fetched_content || text`,
`title = fetched_title || title`; a falsy content contributes nothing
(`return null`), otherwise the body, with a `### title` heading when the
title is truthy. -/
def renderArticle (article : ExtractedArticle) : Option String :=
  let content := jsOrStr article.fetched_content article.text
  let title := jsOrStr article.fetched_title article.title
  if !jsTruthyOptStr content then none
  else if jsTruthyOptStr title then
    some ("### " ++ title.getD "" ++ "\n\n" ++ content.getD "")
  else
    some (content.getD "")

/-- JS `.filter(Boolean)` over an array of `string | null`: drop the
nulls and the empty strings. -/
def filterBooleanStr (l : List (Option String)) : List String :=
  (l.filterMap id).filter (fun s => !s.isEmpty)

/-- JS `Array.prototype.join(sep)`: elements joined with the separator
between consecutive elements. -/
def joinSep (sep : String) : List String → String
  | [] => ""
  | [a] => a
  | a :: rest => a ++ sep ++ joinSep sep rest

/-- Render one email's block: trimmed `From/Subject/Date` header, blank
line, then the renderable articles joined with the article separator. -/
def renderEmail (email : ExtractedEmail) : String :=
  let header := jsTrim ("From: " ++ email.from'.getD "" ++ "\nSubject: "
    ++ email.subject.getD "" ++ "\nDate: " ++ email.date.getD "")
  let articlesText :=
    joinSep "\n\n---\n\n" (filterBooleanStr (email.articles.map renderArticle))
  jsTrim (header ++ "\n\n" ++ articlesText)

/-- `buildPodcastInput`: render every email block, drop falsy blocks, join
with the email separator. -/
def buildPodcastInput (extractedEmails : List ExtractedEmail) : String :=
  joinSep "\n\n===\n\n"
    ((extractedEmails.map renderEmail).filter (fun s => !s.isEmpty))

/-! ### Lemmas about the JS string helpers -/

theorem trimRightChars_cons (c : Char) (l : List Char) (hc : jsIsWhitespace c = false) :
    trimRightChars (c :: l) = c :: trimRightChars l := by
  unfold trimRightChars
  rw [List.reverse_cons, List.dropWhile_append]
  split
  case isTrue h =>
    rw [List.isEmpty_iff] at h
    rw [h, List.dropWhile_cons]
    simp [hc]
  case isFalse h =>
    rw [List.reverse_append]
    rfl

theorem jsTrim_cons (c : Char) (l : List Char) (hc : jsIsWhitespace c = false) :
    jsTrim ⟨c :: l⟩ = ⟨c :: trimRightChars l⟩ := by
  unfold jsTrim
  show (⟨trimRightChars (List.dropWhile jsIsWhitespace (c :: l))⟩ : String) = _
  rw [List.dropWhile_cons]
  simp only [hc, Bool.false_eq_true, if_false]
  rw [trimRightChars_cons c l hc]

theorem trimRightChars_append_ws (M N : List Char)
    (hN : ∀ c ∈ N, jsIsWhitespace c = true) :
    trimRightChars (M ++ N) = trimRightChars M := by
  unfold trimRightChars
  rw [List.reverse_append, List.dropWhile_append]
  have hNrev : List.dropWhile jsIsWhitespace N.reverse = [] := by
    rw [List.dropWhile_eq_nil_iff]
    intro x hx
    exact hN x (List.mem_reverse.1 hx)
  rw [hNrev]
  simp

theorem trimRightChars_idem (M : List Char) :
    trimRightChars (trimRightChars M) = trimRightChars M := by
  unfold trimRightChars
  rw [List.reverse_reverse, List.dropWhile_idempotent]

/-- The shape of every rendered email block: it starts with the letter `F`
of the `From:` label. -/
theorem renderEmail_shape (email : ExtractedEmail) :
    ∃ l : List Char, renderEmail email = ⟨'F' :: l⟩ ∧
      l = trimRightChars
        (trimRightChars ("rom: " ++ email.from'.getD "" ++ "\nSubject: "
            ++ email.subject.getD "" ++ "\nDate: " ++ email.date.getD "").data
          ++ ("\n\n").data
          ++ (joinSep "\n\n---\n\n"
              (filterBooleanStr (email.articles.map renderArticle))).data) := by
  unfold renderEmail
  dsimp only
  rw [show ("From: " ++ email.from'.getD "" ++ "\nSubject: " ++ email.subject.getD ""
      ++ "\nDate: " ++ email.date.getD "")
    = (⟨'F' :: ("rom: " ++ email.from'.getD "" ++ "\nSubject: " ++ email.subject.getD ""
      ++ "\nDate: " ++ email.date.getD "").data⟩ : String) from rfl]
  rw [jsTrim_cons _ _ (by decide)]
  rw [show ∀ M : List Char, ∀ y z : String,
      (⟨'F' :: M⟩ : String) ++ y ++ z = ⟨'F' :: (M ++ y.data ++ z.data)⟩
    from fun _ _ _ => rfl]
  rw [jsTrim_cons _ _ (by decide)]
  exact ⟨_, rfl, rfl⟩

/-- No email block is ever the empty string. -/
theorem renderEmail_ne_empty (email : ExtractedEmail) : renderEmail email ≠ "" := by
  obtain ⟨l, hl, _⟩ := renderEmail_shape email
  rw [hl]
  intro h
  have := congrArg String.data h
  simp at this

/-- **C7**: a fetched message with no (truthy) HTML body never invokes the
extraction collaborator — the step's result does not depend on the
collaborator at all — and yields exactly one article whose text is the
message's plain-text body; a message with an HTML body whose collaborator
call fails yields the same single plain-text article instead of failing;
and the step maps each input message to its result at the same index. -/
theorem C7_extractEmailsContent_plaintext_fallback
    (extractor extractor2 : String → String → Except String Extraction)
    (emails : List GmailMessageContent) (email : GmailMessageContent) :
    (jsTruthyOptStr email.html = false →
      extractOneEmail extractor email =
        { subject := email.headers.lookup "Subject"
          from' := email.headers.lookup "From"
          date := email.headers.lookup "Date"
          articles := [{ text := some email.text }] } ∧
      extractOneEmail extractor email = extractOneEmail extractor2 email) ∧
    (∀ err : String, jsTruthyOptStr email.html = true →
      extractor (email.html.getD "") email.text = Except.error err →
      extractOneEmail extractor email =
        { subject := email.headers.lookup "Subject"
          from' := email.headers.lookup "From"
          date := email.headers.lookup "Date"
          articles := [{ text := some email.text }] }) ∧
    (∀ i : Nat, (extractEmailsContent extractor emails)[i]? =
      (emails[i]?).map (extractOneEmail extractor)) := by
  refine ⟨?_, ?_, ?_⟩
  · intro h
    constructor
    · unfold extractOneEmail
      rw [h]
      rfl
    · unfold extractOneEmail
      rw [h]
      rfl
  · intro err htruthy herr
    unfold extractOneEmail
    rw [htruthy, herr]
    rfl
  · intro i
    unfold extractEmailsContent
    rw [List.getElem?_map]

/-- **C8**: an article with truthy `fetched_content` (in particular one
that also has original text) renders from `fetched_content`, with the
heading preferring `fetched_title` over `title`; an article with neither
truthy `fetched_content` nor truthy `text` contributes no block; articles
within one email are joined by the `---` separator and emails by the
higher-level `===` separator. -/
theorem C8_buildPodcastInput_prefers_fetched (article : ExtractedArticle) :
    (jsTruthyOptStr article.fetched_content = true →
      jsTruthyOptStr article.text = true →
      renderArticle article = some
        (if jsTruthyOptStr (jsOrStr article.fetched_title article.title) then
          "### " ++ (jsOrStr article.fetched_title article.title).getD ""
            ++ "\n\n" ++ article.fetched_content.getD ""
        else article.fetched_content.getD "")) ∧
    (jsTruthyOptStr article.fetched_content = false →
      jsTruthyOptStr article.text = false →
      renderArticle article = none) ∧
    (∀ (email : ExtractedEmail) (a₁ a₂ : ExtractedArticle) (s₁ s₂ : String),
      email.articles = [a₁, a₂] →
      renderArticle a₁ = some s₁ → s₁ ≠ "" →
      renderArticle a₂ = some s₂ → s₂ ≠ "" →
      renderEmail email = jsTrim (jsTrim ("From: " ++ email.from'.getD ""
        ++ "\nSubject: " ++ email.subject.getD "" ++ "\nDate: " ++ email.date.getD "")
        ++ "\n\n" ++ (s₁ ++ "\n\n---\n\n" ++ s₂))) ∧
    (∀ e₁ e₂ : ExtractedEmail,
      buildPodcastInput [e₁, e₂] = renderEmail e₁ ++ "\n\n===\n\n" ++ renderEmail e₂) := by
  refine ⟨?_, ?_, ?_, ?_⟩
  · intro hfc _
    simp only [renderArticle, jsOrStr, hfc, if_true, Bool.not_true, Bool.false_eq_true, if_false]
    rw [apply_ite some]
  · intro hfc htext
    simp [renderArticle, jsOrStr, hfc, htext]
  · intro email a₁ a₂ s₁ s₂ harts h₁ hne₁ h₂ hne₂
    have he₁ : s₁.isEmpty = false := by
      cases hq : s₁.isEmpty
      · rfl
      · exact absurd ((String.isEmpty_iff s₁).1 hq) hne₁
    have he₂ : s₂.isEmpty = false := by
      cases hq : s₂.isEmpty
      · rfl
      · exact absurd ((String.isEmpty_iff s₂).1 hq) hne₂
    unfold renderEmail
    rw [harts]
    dsimp only
    rw [show ([a₁, a₂].map renderArticle) = [some s₁, some s₂] from by
      rw [List.map_cons, List.map_cons, List.map_nil, h₁, h₂]]
    rw [show filterBooleanStr [some s₁, some s₂] = [s₁, s₂] from by
      unfold filterBooleanStr
      simp [he₁, he₂]]
    rfl
  · intro e₁ e₂
    unfold buildPodcastInput
    have k₁ : (renderEmail e₁).isEmpty = false := by
      cases hq : (renderEmail e₁).isEmpty
      · rfl
      · exact absurd ((String.isEmpty_iff _).1 hq) (renderEmail_ne_empty e₁)
    have k₂ : (renderEmail e₂).isEmpty = false := by
      cases hq : (renderEmail e₂).isEmpty
      · rfl
      · exact absurd ((String.isEmpty_iff _).1 hq) (renderEmail_ne_empty e₂)
    rw [show (([e₁, e₂].map renderEmail).filter (fun s => !s.isEmpty))
        = [renderEmail e₁, renderEmail e₂] from by simp [k₁, k₂]]
    rfl

/-- **C10**: every `ExtractedEmail` contributes a block to the composed
text — the rendered header always contains the `From:`/`Subject:`/`Date:`
labels and so is non-empty after trimming — hence the falsy-block filter
removes nothing, no email is omitted from the composed output, and an
email with no renderable articles appears as its bare trimmed header. -/
theorem C10_buildPodcastInput_no_email_omitted (extractedEmails : List ExtractedEmail) :
    ((extractedEmails.map renderEmail).filter (fun s => !s.isEmpty))
        = extractedEmails.map renderEmail ∧
    buildPodcastInput extractedEmails
        = joinSep "\n\n===\n\n" (extractedEmails.map renderEmail) ∧
    (∀ email : ExtractedEmail, renderEmail email ≠ "") ∧
    (∀ email : ExtractedEmail,
      filterBooleanStr (email.articles.map renderArticle) = [] →
      renderEmail email = jsTrim ("From: " ++ email.from'.getD "" ++ "\nSubject: "
        ++ email.subject.getD "" ++ "\nDate: " ++ email.date.getD "")) := by
  have hfilter : ((extractedEmails.map renderEmail).filter (fun s => !s.isEmpty))
      = extractedEmails.map renderEmail := by
    rw [List.filter_eq_self]
    intro a ha
    obtain ⟨email, _, heq⟩ := List.mem_map.1 ha
    cases hq : a.isEmpty
    · rfl
    · exact absurd ((String.isEmpty_iff a).1 hq) (heq ▸ renderEmail_ne_empty email)
  refine ⟨hfilter, ?_, fun email => renderEmail_ne_empty email, ?_⟩
  · unfold buildPodcastInput
    rw [hfilter]
  · intro email hempty
    unfold renderEmail
    dsimp only
    rw [hempty]
    rw [show joinSep "\n\n---\n\n" [] = "" from rfl]
    rw [show ("From: " ++ email.from'.getD "" ++ "\nSubject: " ++ email.subject.getD ""
        ++ "\nDate: " ++ email.date.getD "")
      = (⟨'F' :: ("rom: " ++ email.from'.getD "" ++ "\nSubject: " ++ email.subject.getD ""
        ++ "\nDate: " ++ email.date.getD "").data⟩ : String) from rfl]
    rw [jsTrim_cons _ _ (by decide)]
    rw [show ∀ M : List Char, ∀ y z : String,
        (⟨'F' :: M⟩ : String) ++ y ++ z = ⟨'F' :: (M ++ y.data ++ z.data)⟩
      from fun _ _ _ => rfl]
    rw [jsTrim_cons _ _ (by decide)]
    rw [show ("" : String).data = [] from rfl, List.append_nil]
    rw [trimRightChars_append_ws _ _ (by decide)]
    rw [trimRightChars_idem]

/-- Sequential mapping with an index-independent function is `List.map`. -/
theorem MapWC.seqMapIdx_const (f : T → R) :
    ∀ (l : List T) (i0 : Nat), MapWC.seqMapIdx (fun x _ => f x) l i0 = l.map f := by
  intro l
  induction l with
  | nil => intro i0; rfl
  | cons x xs ih => intro i0; simp [MapWC.seqMapIdx, ih]

theorem MapWC.seqMapSpec_const (items : List T) (f : T → R) :
    MapWC.seqMapSpec items (fun x _ => f x) = items.map f :=
  MapWC.seqMapIdx_const f items 0

/-- Bridge between the operational executor and the denotation used by the
pipeline model: the source's `mapWithConcurrency(emails, 4, mapper)` call
in `extractEmailsContent`, whose mapper never rejects, settles (in every
complete schedule) with exactly the sequential map `extractEmailsContent`. -/
theorem extractEmailsContent_matches_executor
    (extractor : String → String → Except String Extraction)
    (emails : List GmailMessageContent)
    (s : MapWC.ExecState ExtractedEmail String)
    (hreach : MapWC.Reaches emails (fun e _ => Except.ok (extractOneEmail extractor e))
      (MapWC.initState emails 4) s)
    (hdone : MapWC.Complete s) :
    MapWC.outcome s = Except.ok ((extractEmailsContent extractor emails).map some) := by
  have h := MapWC.allOk_outcome emails 4 _ (fun e _ => extractOneEmail extractor e)
    (fun _ _ _ => rfl) s hreach hdone
  rw [h]
  unfold extractEmailsContent
  rw [MapWC.seqMapSpec_const]

/-! ### Concrete values used by the witnesses of C7, C8, C10 -/

/-- A message with no HTML body. -/
def exNoHtml : GmailMessageContent :=
  { id := "m1"
    headers := [("Subject", "S"), ("From", "F"), ("Date", "D")]
    text := "hello"
    html := none }

/-- A message with an HTML body. -/
def exHtml : GmailMessageContent :=
  { id := "m2", headers := [], text := "plain", html := some "<p>x</p>" }

/-- An extraction collaborator that always fails. -/
def failingExtractor : String → String → Except String Extraction :=
  fun _ _ => Except.error "extractor down"

/-- An extraction collaborator that always succeeds with no articles. -/
def okExtractor : String → String → Except String Extraction :=
  fun _ _ => Except.ok ⟨[]⟩

/-- Witness for C7: the HTML-less message yields the single plain-text
article independently of the collaborator, and the failing collaborator on
the HTML message falls back to the same shape. -/
theorem C7_extractEmailsContent_plaintext_fallback_witness :
    (extractOneEmail failingExtractor exNoHtml =
      { subject := some "S", from' := some "F", date := some "D"
        articles := [{ text := some "hello" }] } ∧
      extractOneEmail failingExtractor exNoHtml = extractOneEmail okExtractor exNoHtml) ∧
    extractOneEmail failingExtractor exHtml =
      { subject := none, from' := none, date := none, articles := [{ text := some "plain" }] } ∧
    (extractEmailsContent failingExtractor [exNoHtml])[0]? =
      ([exNoHtml][0]?).map (extractOneEmail failingExtractor) := by
  have h := C7_extractEmailsContent_plaintext_fallback failingExtractor okExtractor
    [exNoHtml] exNoHtml
  have h2 := C7_extractEmailsContent_plaintext_fallback failingExtractor okExtractor
    [exNoHtml] exHtml
  refine ⟨⟨(h.1 (by decide)).1.trans (by decide), (h.1 (by decide)).2⟩, ?_, h.2.2 0⟩
  exact (h2.2.1 "extractor down" (by decide) rfl).trans (by decide)

/-- An article with both fetched and original content. -/
def artBoth : ExtractedArticle :=
  { text := some "orig", title := some "t"
    fetched_content := some "full", fetched_title := some "ft" }

/-- An article with no content at all. -/
def artNone : ExtractedArticle := {}

/-- A demo email with no articles. -/
def emDemo : ExtractedEmail := { subject := some "s1", articles := [] }

/-- A second demo email. -/
def emDemo2 : ExtractedEmail := { from' := some "a@b", articles := [artNone] }

/-- Witness for C8: the article with both contents renders from the
fetched content under the fetched title, the empty article renders
nothing, and two email blocks are joined by the `===` separator. -/
theorem C8_buildPodcastInput_prefers_fetched_witness :
    renderArticle artBoth = some ("### ft" ++ "\n\n" ++ "full") ∧
    renderArticle artNone = none ∧
    buildPodcastInput [emDemo, emDemo2] =
      renderEmail emDemo ++ "\n\n===\n\n" ++ renderEmail emDemo2 := by
  have h := C8_buildPodcastInput_prefers_fetched artBoth
  have hn := C8_buildPodcastInput_prefers_fetched artNone
  refine ⟨(h.1 (by decide) (by decide)).trans (by decide), hn.2.1 (by decide) (by decide),
    h.2.2.2 emDemo emDemo2⟩

/-- Witness for C10: with the no-article email, nothing is filtered out,
the block is non-empty, and it equals the bare trimmed header. -/
theorem C10_buildPodcastInput_no_email_omitted_witness :
    (([emDemo].map renderEmail).filter (fun s => !s.isEmpty)) = [emDemo].map renderEmail ∧
    renderEmail emDemo ≠ "" ∧
    renderEmail emDemo = jsTrim ("From: " ++ emDemo.from'.getD "" ++ "\nSubject: "
      ++ emDemo.subject.getD "" ++ "\nDate: " ++ emDemo.date.getD "") := by
  have h := C10_buildPodcastInput_no_email_omitted [emDemo]
  exact ⟨h.1, h.2.2.1 emDemo, h.2.2.2 emDemo (by decide)⟩

/-! ## Subscription pipeline: `processNewsletter` (lines 320–359) and the
orchestrator loops of `createUsersPodcasts` (lines 477–545)

The persistent store is modelled explicitly.  The external collaborators
(Gmail list/fetch via the credential manager, the synthesis service, the
history insert) are fallible parameters of the pipeline; within the
pipeline the two fan-out calls are used through their sequential
denotation (`mapExceptSeq`), justified against the operational executor by
`MapWC.allOk_outcome` / `extractEmailsContent_matches_executor`: an
all-ok fan-out settles with the sequential map, a failing fan-out fails
the surrounding step.  The `prisma.newsletter.update` of the reschedule
step is modelled as a pure store update. -/

/-- Subscription record: the `Newsletter` row fields the core reads and
writes. -/
structure NewsletterRec where
  id : String
  interval : Interval
  lastRun : Option Int := none
  nextRun : Option Int := none
  selectedEmails : List String := []
  isActive : Bool := true
deriving DecidableEq, Repr

/-- Run-history row: the fields of the `newsletterHistory.create` payload
that the claims observe (count, synthesis result, message-id snapshot). -/
structure HistoryRec where
  newsletterId : String
  fetchedEmailCount : Nat
  podcast : String
  emailIds : List String
deriving DecidableEq, Repr

/-- The persistent store as seen by the pipeline. -/
structure Store where
  newsletters : List NewsletterRec
  histories : List HistoryRec
deriving DecidableEq, Repr

/-- `NewsletterProcessingOptions` (lines 35–38). -/
structure NewsletterProcessingOptions where
  maxEmailsPerNewsletter : Int
  gmailFetchConcurrency : Int
deriving DecidableEq, Repr

/-- The external collaborators of one pipeline run, each modelled as what
its call eventually settles with.  `gmailList` and `gmailGet` absorb the
credential manager (out of the claims' scope); `persistHistory` is whether
the history insert succeeds. -/
structure PipelineEnv where
  gmailList : String → Int → Except String (List String)
  gmailGet : String → Except String GmailMessageContent
  extractor : String → String → Except String Extraction
  synthesize : String → Except String String
  persistHistory : Except String Unit

/-- Sequential denotation of a fallible fan-out: first error aborts
(`mapWithConcurrency` rejects whenever some mapper application fails, and
settles with the in-order results when none does). -/
def mapExceptSeq (f : α → Except ε β) : List α → Except ε (List β)
  | [] => Except.ok []
  | a :: as =>
    match f a with
    | Except.error e => Except.error e
    | Except.ok b =>
      match mapExceptSeq f as with
      | Except.error e => Except.error e
      | Except.ok bs => Except.ok (b :: bs)

/-- `buildSelectedEmailsQuery` (integrations/gmail.ts). -/
def buildSelectedEmailsQuery (selectedEmails : List String) : String :=
  let cleaned := (selectedEmails.map jsTrim).filter (fun s => !s.isEmpty)
  if cleaned.isEmpty then ""
  else "(" ++ joinSep " OR " (cleaned.map (fun email => "from:" ++ email)) ++ ")"

/-- `buildGmailQuery` (integrations/gmail.ts). -/
def buildGmailQuery (selectedEmails : List String) (afterUnixSeconds : Int) : String :=
  let fromPart := buildSelectedEmailsQuery selectedEmails
  let parts := (if fromPart.isEmpty then [] else [fromPart])
    ++ (if 0 < afterUnixSeconds then ["after:" ++ toString afterUnixSeconds] else [])
  jsTrim (joinSep " " parts)

/-- `fetchNewsletterEmails` (lines 159–192): effective after-instant is
`lastRun ?? startDate`; list up to `clamp(maxEmailsPerNewsletter, 1, 50)`
candidates, then fetch each body (the source fans this out with bound
`clamp(gmailFetchConcurrency, 1, 20)`; the denotation is sequential). -/
def fetchNewsletterEmails (env : PipelineEnv) (nl : NewsletterRec)
    (options : NewsletterProcessingOptions) (startDate : Int) :
    Except String (List GmailMessageContent) :=
  let afterUnixSeconds := (nl.lastRun.getD startDate) / 1000
  let q := buildGmailQuery nl.selectedEmails afterUnixSeconds
  match env.gmailList q (max 1 (min 50 options.maxEmailsPerNewsletter)) with
  | Except.error e => Except.error e
  | Except.ok ids => mapExceptSeq env.gmailGet ids

/-- `NewsletterResult` (lines 40–47), with the synthesis result and
timestamps abstracted to `String`/`Int`. -/
structure NewsletterResult where
  newsletterId : String
  fetchedEmailCount : Option Nat := none
  historyId : Option String := none
  podcast : Option String := none
  nextRun : Option Int := none
  error : Option String := none
deriving DecidableEq, Repr

/-- `processNewsletter`: steps 1–6 inside `try`, with any failure caught
at the boundary and converted into `{ newsletterId, error }`, leaving the
store untouched; on success the history row is appended and the schedule
advanced to `lastRun = now`, `nextRun = addInterval now interval`. -/
def processNewsletter (env : PipelineEnv) (db : Store) (nl : NewsletterRec)
    (options : NewsletterProcessingOptions) (startDate now : Int) :
    NewsletterResult × Store :=
  match fetchNewsletterEmails env nl options startDate with
  | Except.error e => ({ newsletterId := nl.id, error := some e }, db)
  | Except.ok emails =>
    let extractedEmails := extractEmailsContent env.extractor emails
    let combinedText := buildPodcastInput extractedEmails
    match env.synthesize combinedText with
    | Except.error e => ({ newsletterId := nl.id, error := some e }, db)
    | Except.ok podcast =>
      match env.persistHistory with
      | Except.error e => ({ newsletterId := nl.id, error := some e }, db)
      | Except.ok _ =>
        let db1 : Store := { db with histories := db.histories
          ++ [{ newsletterId := nl.id, fetchedEmailCount := emails.length
                podcast := podcast, emailIds := emails.map (fun e => e.id) }] }
        let nextRun := addInterval now nl.interval
        let db2 : Store := { db1 with newsletters := db1.newsletters.map (fun r =>
          if r.id = nl.id then { r with lastRun := some now, nextRun := some nextRun }
          else r) }
        ({ newsletterId := nl.id
           fetchedEmailCount := some emails.length
           historyId := some (toString db.histories.length)
           podcast := some podcast
           nextRun := some nextRun }, db2)

/-- The per-user subscription loop of `createUsersPodcasts` (lines
522–531): every due subscription is processed in order, threading the
store; no failure stops the loop. -/
def processUserNewsletters (env : PipelineEnv) (db : Store)
    (nls : List NewsletterRec) (options : NewsletterProcessingOptions)
    (startDate now : Int) : List NewsletterResult × Store :=
  match nls with
  | [] => ([], db)
  | nl :: rest =>
    let rdb := processNewsletter env db nl options startDate now
    let rest' := processUserNewsletters env rdb.2 rest options startDate now
    (rdb.1 :: rest'.1, rest'.2)

/-- `EmailAccount` as read by the orchestrator. -/
structure EmailAccountRec where
  id : String
  accessToken : Option String := none
deriving DecidableEq, Repr

/-- A user row with the included Gmail accounts and due subscriptions. -/
structure UserRec where
  id : String
  emailAccounts : List EmailAccountRec := []
  newsletters : List NewsletterRec := []
deriving DecidableEq, Repr

/-- `UserResult` (lines 49–54). -/
structure UserResult where
  userId : String
  emailAccountId : Option String := none
  newsletters : List NewsletterResult := []
  error : Option String := none
deriving DecidableEq, Repr

/-- One iteration of the per-user loop of `createUsersPodcasts`: missing
account or missing access token yields a user-level error and skips the
user's subscriptions; otherwise every due subscription is processed. -/
def processOneUser (env : PipelineEnv) (db : Store) (user : UserRec)
    (options : NewsletterProcessingOptions) (startDate now : Int) :
    UserResult × Store :=
  match user.emailAccounts.head? with
  | none =>
    ({ userId := user.id, emailAccountId := none, newsletters := []
       error := some "No Gmail email account found for user" }, db)
  | some acct =>
    if acct.accessToken.isNone then
      ({ userId := user.id, emailAccountId := some acct.id, newsletters := []
         error := some "No Gmail email account with accessToken found for user" }, db)
    else
      let rs := processUserNewsletters env db user.newsletters options startDate now
      ({ userId := user.id, emailAccountId := some acct.id, newsletters := rs.1 }, rs.2)

/-- The outer user loop of `createUsersPodcasts`. -/
def processUsers (env : PipelineEnv) (db : Store) (users : List UserRec)
    (options : NewsletterProcessingOptions) (startDate now : Int) :
    List UserResult × Store :=
  match users with
  | [] => ([], db)
  | user :: rest =>
    let rdb := processOneUser env db user options startDate now
    let rest' := processUsers env rdb.2 rest options startDate now
    (rdb.1 :: rest'.1, rest'.2)

/-- `createUsersPodcasts`: compute the UTC-day window start and drive the
user loop. -/
def createUsersPodcasts (env : PipelineEnv) (db : Store) (users : List UserRec)
    (options : NewsletterProcessingOptions) (now : Int) :
    List UserResult × Store :=
  processUsers env db users options (startOfUtcDay now) now

/-! ### Pipeline lemmas and claims C3, C4 -/

/-- The result of one pipeline run always carries the subscription's id. -/
theorem processNewsletter_id (env : PipelineEnv) (db : Store) (nl : NewsletterRec)
    (options : NewsletterProcessingOptions) (startDate now : Int) :
    (processNewsletter env db nl options startDate now).1.newsletterId = nl.id := by
  unfold processNewsletter
  rcases fetchNewsletterEmails env nl options startDate with e | emails
  · rfl
  · dsimp only
    rcases env.synthesize (buildPodcastInput (extractEmailsContent env.extractor emails))
      with e | podcast
    · rfl
    · rcases env.persistHistory with e | u
      · rfl
      · rfl

/-- Every pipeline run either leaves the store untouched or reports no
error. -/
theorem processNewsletter_db_or_ok (env : PipelineEnv) (db : Store) (nl : NewsletterRec)
    (options : NewsletterProcessingOptions) (startDate now : Int) :
    (processNewsletter env db nl options startDate now).2 = db ∨
      (processNewsletter env db nl options startDate now).1.error = none := by
  unfold processNewsletter
  rcases fetchNewsletterEmails env nl options startDate with e | emails
  · exact Or.inl rfl
  · dsimp only
    rcases env.synthesize (buildPodcastInput (extractEmailsContent env.extractor emails))
      with e | podcast
    · exact Or.inl rfl
    · rcases env.persistHistory with e | u
      · exact Or.inl rfl
      · exact Or.inr rfl

/-- A failed pipeline run leaves the store untouched. -/
theorem processNewsletter_error_db (env : PipelineEnv) (db : Store) (nl : NewsletterRec)
    (options : NewsletterProcessingOptions) (startDate now : Int)
    (h : (processNewsletter env db nl options startDate now).1.error.isSome = true) :
    (processNewsletter env db nl options startDate now).2 = db := by
  rcases processNewsletter_db_or_ok env db nl options startDate now with heq | hnone
  · exact heq
  · rw [hnone] at h
    simp at h

/-- **C3**: every exception in pipeline steps 1–7 is caught at the
`processNewsletter` boundary and converted into a result carrying the
subscription id and the error message (shown for a failing fetch, a
failing synthesis and a failing history insert); on failure the store —
and with it the subscription's `lastRun`/`nextRun` — is unchanged; and the
per-user and per-batch loops still process every sibling subscription and
every other user, one result per input in input order. -/
theorem C3_processNewsletter_failure_isolation :
    (∀ (env : PipelineEnv) (db : Store) (nl : NewsletterRec)
        (options : NewsletterProcessingOptions) (startDate now : Int),
      (processNewsletter env db nl options startDate now).1.newsletterId = nl.id ∧
      ((processNewsletter env db nl options startDate now).1.error.isSome = true →
        (processNewsletter env db nl options startDate now).2 = db) ∧
      (∀ e : String, fetchNewsletterEmails env nl options startDate = Except.error e →
        processNewsletter env db nl options startDate now =
          ({ newsletterId := nl.id, error := some e }, db)) ∧
      (∀ (e : String) (emails : List GmailMessageContent),
        fetchNewsletterEmails env nl options startDate = Except.ok emails →
        env.synthesize (buildPodcastInput (extractEmailsContent env.extractor emails))
          = Except.error e →
        processNewsletter env db nl options startDate now =
          ({ newsletterId := nl.id, error := some e }, db)) ∧
      (∀ (e : String) (emails : List GmailMessageContent) (podcast : String),
        fetchNewsletterEmails env nl options startDate = Except.ok emails →
        env.synthesize (buildPodcastInput (extractEmailsContent env.extractor emails))
          = Except.ok podcast →
        env.persistHistory = Except.error e →
        processNewsletter env db nl options startDate now =
          ({ newsletterId := nl.id, error := some e }, db))) ∧
    (∀ (env : PipelineEnv) (db : Store) (nls : List NewsletterRec)
        (options : NewsletterProcessingOptions) (startDate now : Int),
      (processUserNewsletters env db nls options startDate now).1.length = nls.length ∧
      (∀ (j : Nat) (nl : NewsletterRec), nls[j]? = some nl →
        ∃ r, (processUserNewsletters env db nls options startDate now).1[j]? = some r ∧
          r.newsletterId = nl.id)) ∧
    (∀ (env : PipelineEnv) (db : Store) (users : List UserRec)
        (options : NewsletterProcessingOptions) (now : Int),
      (createUsersPodcasts env db users options now).1.length = users.length ∧
      (∀ (j : Nat) (user : UserRec), users[j]? = some user →
        ∃ ur, (createUsersPodcasts env db users options now).1[j]? = some ur ∧
          ur.userId = user.id)) := by
  have huser : ∀ (env : PipelineEnv) (db : Store) (user : UserRec)
      (options : NewsletterProcessingOptions) (startDate now : Int),
      (processOneUser env db user options startDate now).1.userId = user.id := by
    intro env db user options startDate now
    unfold processOneUser
    rcases user.emailAccounts.head? with _ | acct
    · rfl
    · dsimp only
      split
      · rfl
      · rfl
  refine ⟨?_, ?_, ?_⟩
  · intro env db nl options startDate now
    refine ⟨processNewsletter_id env db nl options startDate now,
      processNewsletter_error_db env db nl options startDate now, ?_, ?_, ?_⟩
    · intro e he
      unfold processNewsletter
      rw [he]
    · intro e emails hf hs
      unfold processNewsletter
      rw [hf]
      dsimp only
      rw [hs]
    · intro e emails podcast hf hs hp
      unfold processNewsletter
      rw [hf]
      dsimp only
      rw [hs, hp]
  · intro env db nls options startDate now
    induction nls generalizing db with
    | nil => exact ⟨rfl, by intro j nl h; simp at h⟩
    | cons nl rest ih =>
      refine ⟨?_, ?_⟩
      · show ((processNewsletter env db nl options startDate now).1
            :: (processUserNewsletters env _ rest options startDate now).1).length = rest.length + 1
        rw [List.length_cons, (ih _).1]
      · intro j nl' hj
        have hcons : (processUserNewsletters env db (nl :: rest) options startDate now).1
            = (processNewsletter env db nl options startDate now).1
              :: (processUserNewsletters env
                  (processNewsletter env db nl options startDate now).2
                  rest options startDate now).1 := rfl
        rw [hcons]
        cases j with
        | zero =>
          simp only [List.getElem?_cons_zero, Option.some.injEq] at hj
          subst hj
          exact ⟨(processNewsletter env db nl options startDate now).1, by simp,
            processNewsletter_id env db nl options startDate now⟩
        | succ j =>
          simp only [List.getElem?_cons_succ] at hj
          simpa using (ih _).2 j nl' hj
  · intro env db users options now
    unfold createUsersPodcasts
    induction users generalizing db with
    | nil => exact ⟨rfl, by intro j u h; simp at h⟩
    | cons user rest ih =>
      refine ⟨?_, ?_⟩
      · show ((processOneUser env db user options _ now).1
            :: (processUsers env _ rest options _ now).1).length = rest.length + 1
        rw [List.length_cons, (ih _).1]
      · intro j user' hj
        have hcons : (processUsers env db (user :: rest) options (startOfUtcDay now) now).1
            = (processOneUser env db user options (startOfUtcDay now) now).1
              :: (processUsers env
                  (processOneUser env db user options (startOfUtcDay now) now).2
                  rest options (startOfUtcDay now) now).1 := rfl
        rw [hcons]
        cases j with
        | zero =>
          simp only [List.getElem?_cons_zero, Option.some.injEq] at hj
          subst hj
          exact ⟨(processOneUser env db user options (startOfUtcDay now) now).1, by simp,
            huser env db user options _ now⟩
        | succ j =>
          simp only [List.getElem?_cons_succ] at hj
          simpa using (ih _).2 j user' hj

/-- **C4**: after a successful pipeline run, the result carries
`nextRun = addInterval now interval`, and the store's newsletter table is
exactly the old table with the subscription's row updated to
`lastRun = now`, `nextRun = addInterval now interval` — every other row,
and every other field, is untouched (and by C3's store-preservation no
failing run touches them either), so only the reschedule stage mutates
these two fields. -/
theorem C4_processNewsletter_reschedule (env : PipelineEnv) (db : Store)
    (nl : NewsletterRec) (options : NewsletterProcessingOptions) (startDate now : Int)
    (hsuccess : (processNewsletter env db nl options startDate now).1.error = none) :
    (processNewsletter env db nl options startDate now).1.nextRun
        = some (addInterval now nl.interval) ∧
    (∀ (j : Nat) (rec : NewsletterRec), db.newsletters[j]? = some rec →
      ((processNewsletter env db nl options startDate now).2).newsletters[j]? =
        some (if rec.id = nl.id then
          { rec with lastRun := some now, nextRun := some (addInterval now nl.interval) }
        else rec)) ∧
    ((processNewsletter env db nl options startDate now).2).newsletters.length
        = db.newsletters.length := by
  unfold processNewsletter at hsuccess ⊢
  rcases hf : fetchNewsletterEmails env nl options startDate with e | emails
  · rw [hf] at hsuccess
    simp at hsuccess
  · rw [hf] at hsuccess
    dsimp only at hsuccess ⊢
    rcases hs : env.synthesize (buildPodcastInput (extractEmailsContent env.extractor emails))
      with e | podcast
    · rw [hs] at hsuccess
      simp at hsuccess
    · rw [hs] at hsuccess
      dsimp only at hsuccess ⊢
      rcases hp : env.persistHistory with e | u
      · rw [hp] at hsuccess
        simp at hsuccess
      · refine ⟨rfl, ?_, ?_⟩
        · intro j rec hj
          dsimp only
          rw [List.getElem?_map, hj]
          rfl
        · dsimp only
          rw [List.length_map]

/-! ### Concrete pipeline runs used by the C3/C4 witnesses -/

/-- An environment in which every collaborator succeeds. -/
def okEnv : PipelineEnv :=
  { gmailList := fun _ _ => Except.ok ["id1"]
    gmailGet := fun i => Except.ok { id := i, text := "hello", headers := [], html := none }
    extractor := okExtractor
    synthesize := fun _ => Except.ok "podcast"
    persistHistory := Except.ok () }

/-- An environment in which the Gmail list call fails. -/
def failEnv : PipelineEnv :=
  { okEnv with gmailList := fun _ _ => Except.error "gmail down" }

/-- A weekly subscription. -/
def demoNl : NewsletterRec := { id := "n1", interval := Interval.WEEKLY }

/-- A second subscription. -/
def demoNl2 : NewsletterRec := { id := "n2", interval := Interval.MONTHLY }

/-- A store holding the two subscriptions. -/
def demoDb : Store := { newsletters := [demoNl, demoNl2], histories := [] }

/-- The default options of the job trigger. -/
def demoOptions : NewsletterProcessingOptions :=
  { maxEmailsPerNewsletter := 10, gmailFetchConcurrency := 8 }

/-- A user owning the two subscriptions. -/
def demoUser : UserRec :=
  { id := "u1", emailAccounts := [{ id := "a1", accessToken := some "tok" }]
    newsletters := [demoNl, demoNl2] }

/-- Witness for C3: with the failing Gmail environment, the run of `n1`
reports the error and leaves the store unchanged, and both subscriptions
of the user — and the user itself — still get a result each. -/
theorem C3_processNewsletter_failure_isolation_witness :
    processNewsletter failEnv demoDb demoNl demoOptions 0 0 =
      ({ newsletterId := "n1", error := some "gmail down" }, demoDb) ∧
    (processUserNewsletters failEnv demoDb [demoNl, demoNl2] demoOptions 0 0).1.length = 2 ∧
    (∃ r, (processUserNewsletters failEnv demoDb [demoNl, demoNl2] demoOptions 0 0).1[1]?
        = some r ∧ r.newsletterId = demoNl2.id) ∧
    (∃ ur, (createUsersPodcasts failEnv demoDb [demoUser] demoOptions 0).1[0]?
        = some ur ∧ ur.userId = demoUser.id) := by
  have h := C3_processNewsletter_failure_isolation
  refine ⟨?_, ?_, ?_, ?_⟩
  · exact ((h.1 failEnv demoDb demoNl demoOptions 0 0).2.2.1 "gmail down" rfl).trans rfl
  · exact (h.2.1 failEnv demoDb [demoNl, demoNl2] demoOptions 0 0).1
  · exact (h.2.1 failEnv demoDb [demoNl, demoNl2] demoOptions 0 0).2 1 demoNl2 rfl
  · exact (h.2.2 failEnv demoDb [demoUser] demoOptions 0).2 0 demoUser rfl

/-- Witness for C4: with the all-ok environment, the run of `n1` at
instant 0 reschedules it to exactly one week later and leaves the sibling
row `n2` untouched. -/
theorem C4_processNewsletter_reschedule_witness :
    (processNewsletter okEnv demoDb demoNl demoOptions 0 0).1.nextRun = some 604800000 ∧
    ((processNewsletter okEnv demoDb demoNl demoOptions 0 0).2).newsletters[0]? =
      some { demoNl with lastRun := some 0, nextRun := some 604800000 } ∧
    ((processNewsletter okEnv demoDb demoNl demoOptions 0 0).2).newsletters[1]? =
      some demoNl2 := by
  have h := C4_processNewsletter_reschedule okEnv demoDb demoNl demoOptions 0 0 rfl
  refine ⟨h.1.trans rfl, (h.2.1 0 demoNl rfl).trans rfl, (h.2.1 1 demoNl2 rfl).trans rfl⟩

end Genkit
